import Mathlib

/-!
Shader files embedded as C strings: a shallow embedding of `glsl_to_c.cpp`.

* A C++ `char` is a Lean `Char`, a `std::string` is a `List Char`.  Every
  comparison the program makes on a `char` is against an ASCII constant, so
  only the code of the character matters.
* `size_t` values are natural numbers; subtraction wraps modulo `2 ^ 64` and
  `std::string::npos` is `2 ^ 64 - 1`.
* An output stream is the list of characters written to it.
* The directory is the list of entries `readdir` returns, each with the text
  `ifstream` would read, or `none` when the stream is not `good()` after
  `open`.
-/

namespace GlslToC

/-! ## Strings -/

/-- The constant `std::string::npos`. -/
def npos : Nat := 2 ^ 64 - 1

/-- Subtraction of two `size_t` values. -/
def size_sub (a b : Nat) : Nat := (a + 2 ^ 64 - b % 2 ^ 64) % 2 ^ 64

/-- The call `s.find_first_of( c )`: the lowest index holding `c`, else `npos`. -/
def find_first_of (s : List Char) (c : Char) : Nat :=
  if c ∈ s then s.indexOf c else npos

/-- The call `s.find_last_of( c )`: the highest index holding `c`, else `npos`. -/
def find_last_of (s : List Char) (c : Char) : Nat :=
  if c ∈ s then s.length - 1 - s.reverse.indexOf c else npos

/-- The call `s.substr( pos, n )`, for `pos` not beyond the end of `s`. -/
def substr (s : List Char) (pos n : Nat) : List Char :=
  (s.drop pos).take n

/-- The expression `s[0]`: the first character, the terminating NUL for `""`. -/
def front (s : List Char) : Char :=
  s.headD (Char.ofNat 0)

/-- The constant `DQ`, a double quote. -/
def DQ : Char := Char.ofNat 0x22

/-- The macro `SHADER_TYPE_NAME`. -/
def SHADER_TYPE_NAME : List Char := "_shader_code".toList

/-- The manipulator `endl`, as far as the written characters go. -/
def endl : List Char := ['\n']

/-! ## The escaper (the `getline` loop of `main`) -/

/-- The lines `getline( inf, line )` delivers while `!inf.eof()`: `cur` is the
part of the current line already extracted.  A line is delivered when its
newline is extracted; running into the end of the file sets `eofbit`, which
ends the loop with the characters extracted so far left unused. -/
def read_lines : List Char → List Char → List (List Char)
  | [], _ => []
  | c :: rest, cur =>
    if c = '\n' then cur :: read_lines rest [] else read_lines rest (cur ++ [c])

/-- The body of the `getline` loop, on the pair `(file_text, length)`. -/
def add_line (acc : List Char × List Char) (line : List Char) :
    List Char × List Char :=
  if line ≠ [] then
    if substr line 0 2 ≠ "//".toList then
      (acc.1 ++ (DQ :: line ++ "\\n".toList ++ [DQ] ++ "\n".toList),
       acc.2 ++ (line ++ "\n".toList))
    else acc
  else acc

/-- The pair `(file_text, length)` after the `getline` loop over a file. -/
def read_shader (content : List Char) : List Char × List Char :=
  (read_lines content []).foldl add_line ([], [])

/-- The string `file_text` built for a file. -/
def file_text (content : List Char) : List Char := (read_shader content).1

/-- The string `length` built for a file. -/
def length_text (content : List Char) : List Char := (read_shader content).2

/-- The number `length.length()` written for a file. -/
def true_length (content : List Char) : Nat := (length_text content).length

/-- The loop writing `file_text` to `cfile`: two blanks follow every newline. -/
def write_text (text : List Char) : List Char :=
  text.foldl (fun out c => if c = '\n' then out ++ [c] ++ "  ".toList else out ++ [c]) []

/-! ## The filename decoder -/

/-- The three tests of `main` on a directory entry: not hidden, a last `.`
exists, and the text from it on is `.glsl`. -/
def is_shader_file (filename : List Char) : Bool :=
  if front filename ≠ '.' then
    let extension_start := find_last_of filename '.'
    if extension_start ≠ npos then
      let extension := substr filename extension_start npos
      extension = ".glsl".toList
    else false
  else false

/-- The variable `shader_name` as first assigned. -/
def shader_name (filename : List Char) : List Char :=
  let type_start := find_first_of filename '.'
  substr filename 0 type_start

/-- The variable `shader_type`. -/
def shader_type (filename : List Char) : List Char :=
  let extension_start := find_last_of filename '.'
  let type_start := find_first_of filename '.'
  substr filename ((type_start + 1) % 2 ^ 64) (size_sub extension_start ((type_start + 1) % 2 ^ 64))

/-- The loop over `shader_name[i] != 0`, which lowers by `0x20` every
character strictly between `0x40` and `0x7B`. -/
def to_upper : List Char → List Char
  | [] => []
  | c :: rest =>
    if c.toNat = 0 then c :: rest
    else (if 0x40 < c.toNat ∧ c.toNat < 0x7B then Char.ofNat (c.toNat - 0x20) else c)
      :: to_upper rest

/-- The variable `shader_var_name`. -/
def shader_var_name (filename : List Char) : List Char :=
  to_upper (shader_name filename) ++ "_".toList ++ shader_type filename

/-! ## The include guard -/

/-- One round of the loop building `macro_name`. -/
def macro_char (c : Char) : Char :=
  if 'a' ≤ c ∧ c ≤ 'z' then Char.ofNat (c.toNat - 0x20)
  else if 'A' ≤ c ∧ c ≤ 'Z' then c
  else if '0' ≤ c ∧ c ≤ '9' then c
  else '_'

/-- The variable `macro_name` computed from `of_name`. -/
def macro_name (of_name : List Char) : List Char :=
  of_name.foldl (fun acc c => acc ++ [macro_char c]) "_".toList ++ "_".toList

/-! ## The emitters -/

/-- The function `insert_comment`: the banner at the top of a generated file. -/
def insert_comment (exec_name filename : List Char) : List Char :=
  "/**\n".toList ++
  " * \\file ".toList ++ filename ++ "\n".toList ++
  " * \\author ".toList ++ exec_name ++ "\n *\n".toList ++
  " *   Auto-generated header file containing code from all shaders".toList ++
  "used in this\n".toList ++
  " * program.  A list of the files used to generated this file can ".toList ++
  "be found at\n".toList ++
  " * the bottom of this file.\n".toList ++
  " *\n".toList ++
  " * file generated by:     ".toList ++ exec_name ++ endl ++
  " *\n".toList ++
  " */\n".toList ++ endl ++ endl ++ endl

/-- First statement of `header_def_start`: the type-name definition and the
opening of the include guard. -/
def guard_open (def_tag : List Char) : List Char :=
  "#ifndef  SHADER_TYPE_NAME\n".toList ++
  "# define SHADER_TYPE_NAME ".toList ++ SHADER_TYPE_NAME ++
  " ///< A macro is used for the typename\n".toList ++
  List.replicate 39 ' ' ++ "///< since it is automatically\n".toList ++
  List.replicate 39 ' ' ++ "///< generated by another program.\n#endif\n\n".toList ++
  "#ifndef  ".toList ++ def_tag ++ "\n".toList ++
  "# define ".toList ++ def_tag ++ "\n".toList ++ endl

/-- Second statement of `header_def_start`: the library includes. -/
def library_includes : List Char :=
  "#include<GL/glew.h>\n".toList ++
  "#include<SDL2/SDL.h>\n".toList ++
  "#include<SDL2/SDL_opengl.h>\n".toList ++
  "\n".toList ++
  "#include<GL/glu.h>\n".toList ++
  "#include<GL/freeglut.h>\n".toList ++ endl

/-- Third and fourth statements of `header_def_start`: the record type with
its leading comment. -/
def record_type_def : List Char :=
  "/** Container for shader code.\n".toList ++
  " *  Streamlines use of hard-coded shaders in OpenGL by allowing ".toList ++
  "them to be\n".toList ++
  " *  in their own files with the use of syntactic highlighting.\n".toList ++
  " *\n".toList ++
  " */".toList ++ endl ++
  "struct ".toList ++ SHADER_TYPE_NAME ++ "\n".toList ++
  "\x7b\n".toList ++
  "  GLchar* code; ///< Source text.\n".toList ++
  "  GLuint  size; ///< Number of characters in the source text.\n".toList ++
  "  const GLuint  id; ///< unique ID for each bit of shader code.\n".toList ++
  "\n".toList ++
  "/** Ctor.  Necessary because structs are stored as constants.\n".toList ++
  " *\n".toList ++
  " * param c C-string of the shader source code.\n".toList ++
  " * param s The number of characters in the shader source.\n".toList ++
  " */\n".toList ++
  "  ".toList ++ SHADER_TYPE_NAME ++ "( GLchar* c, GLuint s, GLuint i ) :\n".toList ++
  "    code(c), size(s), id(i)\n".toList ++
  "  \x7b\x7d\n".toList ++
  "\n".toList ++
  "\x7d;\n".toList ++ endl

/-- The function `header_def_start`. -/
def header_def_start (def_tag : List Char) : List Char :=
  guard_open def_tag ++ library_includes ++ record_type_def

/-- The function `header_def_end`. -/
def header_def_end (def_tag : List Char) : List Char :=
  "\n#endif /* ".toList ++ def_tag ++ " */\n".toList ++ endl

/-- The function `file_listing`. -/
def file_listing (names : List (List Char)) : List Char :=
  "//\n// Summary of all files used for generation of this header:\n//".toList ++ endl ++
  names.foldl (fun out file => out ++ "// ".toList ++ file ++ endl) [] ++
  "//".toList ++ endl

/-- The `#include` of the header written to `cfile`. -/
def include_line (of_name : List Char) : List Char :=
  "\n#include ".toList ++ [DQ] ++ of_name ++ [DQ] ++ "\n".toList ++ endl

/-- The comment that opens `shader_externs.h`. -/
def externs_banner : List Char :=
  "/** Include at the top of any .cpp files needing access to the ".toList ++
  "uncompiled\n".toList ++
  " * shaders.  This isn't the best idea, but it's convenient.  ".toList ++
  "I'll remove this\n".toList ++
  " * and do just do it manually later should it become a ".toList ++
  "problem.\n".toList ++
  " */\n".toList ++ endl

/-- The text written to `shader_externs.h`. -/
def externs_text (inst_names : List (List Char)) : List Char :=
  externs_banner ++
  inst_names.foldl
    (fun out name => out ++ "extern SHADER_TYPE_NAME ".toList ++ name ++ ";\n".toList) [] ++
  endl

/-! ## The scan -/

/-- One directory entry: the name `readdir` reports, and the text read from
the file, `none` when the stream is not `good()` after `open`. -/
structure Entry where
  name : List Char
  content : Option (List Char)
deriving DecidableEq

/-- The values one round of the scan hands to the record instantiation it
writes to `cfile`. -/
structure ShaderUnit where
  filename : List Char
  shader_var_name : List Char
  file_text : List Char
  length : Nat
  id : Nat
deriving DecidableEq

/-- What `main` writes to `cfile` for one shader, from the file-origin comment
to the end of the record instantiation. -/
def shader_block (u : ShaderUnit) : List Char :=
  "/** From file:  ".toList ++ u.filename ++ "\n */".toList ++ endl ++
  SHADER_TYPE_NAME ++ " ".toList ++ u.shader_var_name ++ "(\n  ".toList ++
  write_text u.file_text ++
  ",\n  ".toList ++ Nat.toDigits 10 u.length ++ ",\n  ".toList ++
  Nat.toDigits 10 u.id ++ endl ++
  ");\n\n".toList ++ endl

/-- The variables of `main` that live across the rounds of the scan.  The
field `units` is no variable of the program: it records, in order, the values
each record instantiation was written with.  The counter `id` is an `int` in
the program and a natural number here, which is exact below `2 ^ 31` record
instantiations. -/
structure State where
  of : List Char
  cfile : List Char
  id : Nat
  commented : Bool
  begun : Bool
  filenames : List (List Char)
  inst_names : List (List Char)
  units : List ShaderUnit
deriving DecidableEq

/-- The variables as the scan starts. -/
def State.init : State :=
  ⟨[], [], 1, false, false, [], [], []⟩

/-- One round of the `readdir` loop. -/
def scan_entry (exec_name of_name c_name def_tag : List Char) (st : State) (e : Entry) :
    State :=
  let filename := e.name
  if is_shader_file filename then
    let st := { st with filenames := st.filenames ++ [filename] }
    let st :=
      if !st.commented then
        { st with
          of := st.of ++ insert_comment exec_name of_name
          cfile := st.cfile ++ insert_comment exec_name c_name
          commented := true }
      else st
    let st :=
      if !st.begun then
        { st with
          of := st.of ++ header_def_start def_tag ++ header_def_end def_tag
          cfile := st.cfile ++ include_line of_name
          begun := true }
      else st
    match e.content with
    | none => st
    | some text =>
      let u : ShaderUnit :=
        { filename := filename
          shader_var_name := shader_var_name filename
          file_text := file_text text
          length := true_length text
          id := st.id }
      { st with
        cfile := st.cfile ++ shader_block u
        inst_names := st.inst_names ++ [u.shader_var_name]
        id := st.id + 1
        units := st.units ++ [u] }
  else st

/-- The call `s.replace( pos, n, t )`. -/
def replace (s : List Char) (pos n : Nat) (t : List Char) : List Char :=
  s.take pos ++ t ++ s.drop (pos + min n (s.length - pos))

/-- The variable `c_name`: the output filename with `.cpp` in place of the
text from its last `.` on. -/
def source_name (of_name : List Char) : List Char :=
  let dot := find_last_of of_name '.'
  replace of_name dot (size_sub of_name.length dot) ".cpp".toList

/-- What a run leaves behind: the exit code and, for each output stream, the
characters written to it, `none` when it was never opened; `units` are the
values the record instantiations were written with. -/
structure Outcome where
  exit_code : Nat
  header : Option (List Char)
  source : Option (List Char)
  externs : Option (List Char)
  units : List ShaderUnit
deriving DecidableEq

/-- The function `main`, on the argument vector and the directory listing. -/
def main (argv : List (List Char)) (directory : List Entry) : Outcome :=
  match argv with
  | exec_name :: of_name :: _ =>
    let def_tag := macro_name of_name
    let dot := find_last_of of_name '.'
    if dot = npos then
      ⟨0, some [], none, none, []⟩
    else
      let c_name := source_name of_name
      let st := directory.foldl (scan_entry exec_name of_name c_name def_tag) State.init
      if st.commented || st.begun then
        ⟨0, some (st.of ++ file_listing st.filenames ++ "\n".toList ++ endl),
          some (st.cfile ++ file_listing st.filenames ++ "\n".toList ++ endl),
          some (externs_text st.inst_names), st.units⟩
      else
        ⟨0, some (st.of ++ " ".toList), some (st.cfile ++ " ".toList), none, st.units⟩
  | _ => ⟨1, none, none, none, []⟩

/-! ## Reference definitions, written from the specification -/

/-- The guard-token map of the specification: lowercase letters go to the
corresponding uppercase letter, uppercase letters and digits stay, every other
character becomes an underscore. -/
def guard_map (c : Char) : Char :=
  if c.isLower then c.toUpper
  else if c.isUpper || c.isDigit then c
  else '_'

/-- The lines of a text: the pieces between its newline characters. -/
def split_lines : List Char → List (List Char)
  | [] => [[]]
  | c :: rest =>
    if c = '\n' then [] :: split_lines rest
    else match split_lines rest with
      | [] => [[c]]
      | l :: ls => (c :: l) :: ls

/-- The comment-stripped text of the specification: the lines of the file
that are neither blank nor start with `//`, each followed by one newline. -/
def stripped_text (content : List Char) : List Char :=
  (((split_lines content).filter
    (fun l => l ≠ [] ∧ l.take 2 ≠ "//".toList)).map (fun l => l ++ ['\n'])).flatten

/-- Un-escaping one segment: the leading double quote and the trailing
backslash, `n`, double quote are removed and a newline is appended; `none`
when the segment has not that shape. -/
def unescape_segment (seg : List Char) : Option (List Char) :=
  match seg with
  | [] => none
  | q :: rest =>
    if q = DQ ∧ 3 ≤ rest.length ∧ rest.drop (rest.length - 3) = "\\n".toList ++ [DQ] then
      some (rest.take (rest.length - 3) ++ "\n".toList)
    else none

/-- Un-escaping a list of segments, one after the other. -/
def unescape_segments : List (List Char) → Option (List Char)
  | [] => some []
  | seg :: rest =>
    match unescape_segment seg, unescape_segments rest with
    | some a, some b => some (a ++ b)
    | _, _ => none

/-- Un-escaping an escaped text: it is split at its newlines, nothing may
follow the last newline, and every segment is un-escaped. -/
def unescape (escaped : List Char) : Option (List Char) :=
  let pieces := split_lines escaped
  if pieces.getLast? = some [] then unescape_segments pieces.dropLast else none

/-- The text of a name from its last `.` on (for a name that holds a `.`). -/
def from_last_dot (name : List Char) : List Char :=
  '.' :: (name.reverse.takeWhile (fun c => c ≠ '.')).reverse

/-- The filter of the specification: the name does not start with `.`, holds
a `.`, and its text from the last `.` on is exactly `.glsl`. -/
def is_matched (name : List Char) : Bool :=
  decide (name.head? ≠ some '.') && decide ('.' ∈ name) &&
    decide (from_last_dot name = ".glsl".toList)

/-- One declaration line of `shader_externs.h`. -/
def extern_line (name : List Char) : List Char :=
  "extern SHADER_TYPE_NAME ".toList ++ name ++ ";\n".toList

/-- The test under which a round of the scan writes a record instantiation,
in the words of the specification: the entry is matched and could be read. -/
def is_unit (e : Entry) : Bool :=
  is_matched e.name && e.content.isSome

/-! ## Auxiliary definitions: the loops in closed form -/

/-- The escaped segment written for one retained line. -/
def escaped_segment (line : List Char) : List Char :=
  DQ :: line ++ "\\n".toList ++ [DQ]

/-- The test of the loop body: the line is kept. -/
def kept (line : List Char) : Bool :=
  line ≠ [] ∧ substr line 0 2 ≠ "//".toList

/-- The names the scan pushes on `filenames`, in order. -/
def accepted_names (directory : List Entry) : List (List Char) :=
  (directory.filter (fun e => is_shader_file e.name)).map Entry.name

/-- The record instantiations a scan writes, the first with the given id. -/
def units_from (id : Nat) : List Entry → List ShaderUnit
  | [] => []
  | e :: rest =>
    if is_shader_file e.name then
      match e.content with
      | some text =>
        ⟨e.name, shader_var_name e.name, file_text text, true_length text, id⟩
          :: units_from (id + 1) rest
      | none => units_from id rest
    else units_from id rest

/-! ## Reference definitions for the decoder, the listing and the blocks -/

/-- The text of a name strictly between its first `.` and its last `.`. -/
def between_dots (name : List Char) : List Char :=
  (name.take (name.length - 1 - name.reverse.indexOf '.')).drop (name.indexOf '.' + 1)

/-- One line of the file-listing comment. -/
def listing_line (name : List Char) : List Char :=
  "// ".toList ++ name ++ "\n".toList

/-- The file-listing comment block: its three opening lines, one line for each
name, and its closing line. -/
def listing_block (names : List (List Char)) : List Char :=
  "//\n// Summary of all files used for generation of this header:\n//\n".toList ++
  (names.map listing_line).flatten ++ "//\n".toList

/-- A text with every newline replaced by a newline and two blanks. -/
def indent_newlines (text : List Char) : List Char :=
  (text.map (fun c => if c = '\n' then "\n  ".toList else [c])).flatten

/-- The block of the specification for one shader: the file-origin comment,
then the statement that instantiates the record with the escaped text, the
true length and the id, in this order. -/
def instantiation (filename instance_name escaped : List Char) (true_len id : Nat) :
    List Char :=
  "/** From file:  ".toList ++ filename ++ "\n */\n".toList ++
  "_shader_code ".toList ++ instance_name ++ "(\n  ".toList ++
  indent_newlines escaped ++ ",\n  ".toList ++
  (Nat.repr true_len).toList ++ ",\n  ".toList ++
  (Nat.repr id).toList ++ "\n);\n\n\n".toList

/-- The part of a file content up to and including its last newline. -/
def upto_last_newline (content : List Char) : List Char :=
  (content.reverse.dropWhile (fun c => c ≠ '\n')).reverse

/-! ## Reference texts of the generated files, line by line -/

/-- The text whose lines are the given ones, each ended by a newline. -/
def unlines (lines : List (List Char)) : List Char :=
  (lines.map (fun l => l ++ "\n".toList)).flatten

/-- The banner comment at the top of a generated file, for the name of the
generator and the name of the file. -/
def banner_lines (exec_name filename : List Char) : List (List Char) :=
  ["/**".toList,
   " * \\file ".toList ++ filename,
   " * \\author ".toList ++ exec_name,
   " *".toList,
   " *   Auto-generated header file containing code from all shadersused in this".toList,
   " * program.  A list of the files used to generated this file can be found at".toList,
   " * the bottom of this file.".toList,
   " *".toList,
   " * file generated by:     ".toList ++ exec_name,
   " *".toList,
   " */".toList,
   [], [], []]

/-- The opening of the header: the definition of the type name, then the
include guard for the given token. -/
def guard_open_lines (tag : List Char) : List (List Char) :=
  ["#ifndef  SHADER_TYPE_NAME".toList,
   "# define SHADER_TYPE_NAME _shader_code ///< A macro is used for the typename".toList,
   "                                       ///< since it is automatically".toList,
   "                                       ///< generated by another program.".toList,
   "#endif".toList,
   [],
   "#ifndef  ".toList ++ tag,
   "# define ".toList ++ tag,
   []]

/-- The library includes of the header. -/
def library_include_lines : List (List Char) :=
  ["#include<GL/glew.h>".toList,
   "#include<SDL2/SDL.h>".toList,
   "#include<SDL2/SDL_opengl.h>".toList,
   [],
   "#include<GL/glu.h>".toList,
   "#include<GL/freeglut.h>".toList,
   []]

/-- The shared record type: a character pointer to the source text, its
size, a unique id, and one constructor taking all three. -/
def record_type_lines : List (List Char) :=
  ["/** Container for shader code.".toList,
   " *  Streamlines use of hard-coded shaders in OpenGL by allowing them to be".toList,
   " *  in their own files with the use of syntactic highlighting.".toList,
   " *".toList,
   " */".toList,
   "struct _shader_code".toList,
   "\x7b".toList,
   "  GLchar* code; ///< Source text.".toList,
   "  GLuint  size; ///< Number of characters in the source text.".toList,
   "  const GLuint  id; ///< unique ID for each bit of shader code.".toList,
   [],
   "/** Ctor.  Necessary because structs are stored as constants.".toList,
   " *".toList,
   " * param c C-string of the shader source code.".toList,
   " * param s The number of characters in the shader source.".toList,
   " */".toList,
   "  _shader_code( GLchar* c, GLuint s, GLuint i ) :".toList,
   "    code(c), size(s), id(i)".toList,
   "  \x7b\x7d".toList,
   [],
   "\x7d;".toList,
   []]

/-- The closing of the include guard for the given token. -/
def guard_close_lines (tag : List Char) : List (List Char) :=
  [[], "#endif /* ".toList ++ tag ++ " */".toList, []]

/-- The file-listing comment, one line for each name. -/
def listing_lines (names : List (List Char)) : List (List Char) :=
  ["//".toList,
   "// Summary of all files used for generation of this header:".toList,
   "//".toList] ++
  names.map (fun name => "// ".toList ++ name) ++
  ["//".toList]

/-- The `#include` of the header in the source file. -/
def include_lines (of_name : List Char) : List (List Char) :=
  [[], "#include \"".toList ++ of_name ++ "\"".toList, []]

/-- The comment that opens the externs file. -/
def externs_banner_lines : List (List Char) :=
  ["/** Include at the top of any .cpp files needing access to the uncompiled".toList,
   " * shaders.  This isn't the best idea, but it's convenient.  I'll remove this".toList,
   " * and do just do it manually later should it become a problem.".toList,
   " */".toList,
   []]

/-- The name of the source file: the output filename with `.cpp` in place of
its text from the last `.` on. -/
def cpp_name (of_name : List Char) : List Char :=
  of_name.take (of_name.length - (from_last_dot of_name).length) ++ ".cpp".toList

/-- The include-guard token of the specification. -/
def guard_token (of_name : List Char) : List Char :=
  "_".toList ++ of_name.map guard_map ++ "_".toList

/-- The names the program holds in `filenames` when `main` returns: none when
it returns before the scan, else the names the scan has matched. -/
def run_filenames (argv : List (List Char)) (directory : List Entry) : List (List Char) :=
  match argv with
  | exec_name :: of_name :: _ =>
    if find_last_of of_name '.' = npos then []
    else
      (directory.foldl
        (scan_entry exec_name of_name (source_name of_name) (macro_name of_name))
        State.init).filenames
  | _ => []

/-! ## Characters -/

theorem toNat_ofNat_small (n : Nat) (h : n < 0xD800) : (Char.ofNat n).toNat = n := by
  have hv : n.isValidChar := Or.inl h
  simp [Char.ofNat, hv, Char.toNat, Char.ofNatAux]
  rfl

theorem uint32_le_iff (a b : UInt32) : a ≤ b ↔ a.toNat ≤ b.toNat := Iff.rfl

theorem char_le_iff (a b : Char) : a ≤ b ↔ a.toNat ≤ b.toNat := Iff.rfl

theorem isLower_iff (c : Char) : c.isLower = true ↔ 97 ≤ c.toNat ∧ c.toNat ≤ 122 := by
  simp [Char.isLower, Char.toNat, uint32_le_iff, UInt32.size]

theorem isUpper_iff (c : Char) : c.isUpper = true ↔ 65 ≤ c.toNat ∧ c.toNat ≤ 90 := by
  simp [Char.isUpper, Char.toNat, uint32_le_iff, UInt32.size]

theorem isDigit_iff (c : Char) : c.isDigit = true ↔ 48 ≤ c.toNat ∧ c.toNat ≤ 57 := by
  simp [Char.isDigit, Char.toNat, uint32_le_iff, UInt32.size]

theorem foldl_snoc_map {α β : Type} (f : α → β) (s : List α) (init : List β) :
    s.foldl (fun acc c => acc ++ [f c]) init = init ++ s.map f := by
  induction s generalizing init with
  | nil => simp
  | cons x xs ih => simp [ih]

/-! ## The include guard -/

theorem macro_char_eq_guard_map (c : Char) : macro_char c = guard_map c := by
  unfold macro_char guard_map Char.toUpper
  have ha : ('a' ≤ c ∧ c ≤ 'z') ↔ (97 ≤ c.toNat ∧ c.toNat ≤ 122) := Iff.rfl
  have hA : ('A' ≤ c ∧ c ≤ 'Z') ↔ (65 ≤ c.toNat ∧ c.toNat ≤ 90) := Iff.rfl
  have h0 : ('0' ≤ c ∧ c ≤ '9') ↔ (48 ≤ c.toNat ∧ c.toNat ≤ 57) := Iff.rfl
  by_cases h1 : 97 ≤ c.toNat ∧ c.toNat ≤ 122
  · have hl : c.isLower = true := (isLower_iff c).2 h1
    simp [ha, h1, hl]
  · have hl : c.isLower = false := by
      cases h : c.isLower
      · rfl
      · exact absurd ((isLower_iff c).1 h) h1
    by_cases h2 : 65 ≤ c.toNat ∧ c.toNat ≤ 90
    · have hu : c.isUpper = true := (isUpper_iff c).2 h2
      simp [ha, hA, h1, h2, hl, hu]
    · have hu : c.isUpper = false := by
        cases h : c.isUpper
        · rfl
        · exact absurd ((isUpper_iff c).1 h) h2
      by_cases h3 : 48 ≤ c.toNat ∧ c.toNat ≤ 57
      · have hd : c.isDigit = true := (isDigit_iff c).2 h3
        simp [ha, hA, h0, h1, h2, h3, hl, hu, hd]
      · have hd : c.isDigit = false := by
          cases h : c.isDigit
          · rfl
          · exact absurd ((isDigit_iff c).1 h) h3
        simp [ha, hA, h0, h1, h2, h3, hl, hu, hd]

theorem macro_char_range (c : Char) :
    (macro_char c).isUpper = true ∨ (macro_char c).isDigit = true ∨ macro_char c = '_' := by
  unfold macro_char
  have ha : ('a' ≤ c ∧ c ≤ 'z') ↔ (97 ≤ c.toNat ∧ c.toNat ≤ 122) := Iff.rfl
  have hA : ('A' ≤ c ∧ c ≤ 'Z') ↔ (65 ≤ c.toNat ∧ c.toNat ≤ 90) := Iff.rfl
  have h0 : ('0' ≤ c ∧ c ≤ '9') ↔ (48 ≤ c.toNat ∧ c.toNat ≤ 57) := Iff.rfl
  by_cases h1 : 97 ≤ c.toNat ∧ c.toNat ≤ 122
  · left
    rw [if_pos (ha.2 h1), isUpper_iff, toNat_ofNat_small _ (by omega)]
    omega
  · rw [if_neg (fun h => h1 (ha.1 h))]
    by_cases h2 : 65 ≤ c.toNat ∧ c.toNat ≤ 90
    · left
      rw [if_pos (hA.2 h2)]
      exact (isUpper_iff c).2 h2
    · rw [if_neg (fun h => h2 (hA.1 h))]
      by_cases h3 : 48 ≤ c.toNat ∧ c.toNat ≤ 57
      · right; left
        rw [if_pos (h0.2 h3)]
        exact (isDigit_iff c).2 h3
      · right; right
        rw [if_neg (fun h => h3 (h0.1 h))]

/-- C5: the include-guard token of an output filename `s` is an underscore,
then the image of `s` under the guard map (lowercase to uppercase, uppercase
and digits kept, anything else to an underscore), then an underscore; so it
has `|s| + 2` characters, keeps the order, and holds only uppercase letters,
digits and underscores. -/
theorem macro_name_spec (s : List Char) :
    macro_name s = "_".toList ++ s.map guard_map ++ "_".toList ∧
    (macro_name s).length = s.length + 2 ∧
    ∀ c ∈ macro_name s, c.isUpper = true ∨ c.isDigit = true ∨ c = '_' := by
  have hmap : macro_name s = "_".toList ++ s.map macro_char ++ "_".toList := by
    unfold macro_name
    rw [foldl_snoc_map]
  refine ⟨?_, ?_, ?_⟩
  · rw [hmap]
    congr 2
    exact List.map_congr_left (fun c _ => macro_char_eq_guard_map c)
  · rw [hmap]
    simp
  · intro c hc
    rw [hmap] at hc
    simp only [List.mem_append, List.mem_map] at hc
    rcases hc with (hc | ⟨a, _, rfl⟩) | hc
    · right; right
      simpa using hc
    · exact macro_char_range a
    · right; right
      simpa using hc

/-! ## The escaper -/

/-- C1 (code at the failing input): for a file holding the single line
`gl_Position = p;` with no newline after it, the comment-stripped text has 17
characters, the length the program computes is 0, and 0 is the length its
record instantiation is written with. -/
theorem true_length_unterminated :
    (stripped_text "gl_Position = p;".toList).length = 17 ∧
    true_length "gl_Position = p;".toList = 0 ∧
    (main ["glsl_to_c".toList, "shaders.h".toList]
        [⟨"a.vertex.glsl".toList, some "gl_Position = p;".toList⟩]).units.map
      ShaderUnit.length = [0] := by
  decide

/-! ## The filename decoder -/

/-- C2 (code at the failing input): `my_shader.vertex.glsl` is accepted, and
its instance name is `MY?SHADER_vertex`: the underscore of the base name is
changed, where the claim gives `MY_SHADER_vertex`. -/
theorem shader_var_name_underscore :
    is_shader_file "my_shader.vertex.glsl".toList = true ∧
    shader_var_name "my_shader.vertex.glsl".toList = "MY?SHADER_vertex".toList ∧
    shader_var_name "my_shader.vertex.glsl".toList ≠ "MY_SHADER_vertex".toList := by
  decide

/-! ## Reversibility of the escaping -/

theorem add_line_eq (acc : List Char × List Char) (line : List Char) :
    add_line acc line =
      if kept line then
        (acc.1 ++ (escaped_segment line ++ "\n".toList), acc.2 ++ (line ++ "\n".toList))
      else acc := by
  unfold add_line kept escaped_segment
  by_cases h1 : line = []
  · simp [h1]
  · by_cases h2 : substr line 0 2 = "//".toList
    · simp [h1, h2]
    · simp [h1, h2]

theorem foldl_add_line (lines : List (List Char)) (acc : List Char × List Char) :
    lines.foldl add_line acc =
      (acc.1 ++ ((lines.filter kept).map (fun l => escaped_segment l ++ "\n".toList)).flatten,
       acc.2 ++ ((lines.filter kept).map (fun l => l ++ "\n".toList)).flatten) := by
  induction lines generalizing acc with
  | nil => simp
  | cons l ls ih =>
    rw [List.foldl_cons, ih, add_line_eq]
    by_cases hk : kept l = true
    · simp [hk, List.filter_cons]
    · simp [hk, List.filter_cons]

theorem read_lines_no_newline (content cur : List Char) (hcur : '\n' ∉ cur) :
    ∀ l ∈ read_lines content cur, '\n' ∉ l := by
  induction content generalizing cur with
  | nil => simp [read_lines]
  | cons c rest ih =>
    intro l hl
    unfold read_lines at hl
    by_cases hc : c = '\n'
    · rw [if_pos hc] at hl
      rcases List.mem_cons.1 hl with h | h
      · rw [h]; exact hcur
      · exact ih [] (by simp) l h
    · rw [if_neg hc] at hl
      refine ih (cur ++ [c]) ?_ l hl
      simp only [List.mem_append, List.mem_singleton, not_or]
      exact ⟨hcur, fun h => hc h.symm⟩

theorem split_lines_ne_nil (s : List Char) : split_lines s ≠ [] := by
  cases s with
  | nil => simp [split_lines]
  | cons c rest =>
    unfold split_lines
    by_cases hc : c = '\n'
    · simp [hc]
    · rw [if_neg hc]
      cases split_lines rest <;> simp

theorem split_lines_append (seg rest : List Char) (h : '\n' ∉ seg) :
    split_lines (seg ++ '\n' :: rest) = seg :: split_lines rest := by
  induction seg with
  | nil => simp [split_lines]
  | cons c cs ih =>
    have hc : c ≠ '\n' := fun e => h (by simp [e])
    have hcs : '\n' ∉ cs := fun e => h (by simp [e])
    rw [List.cons_append, split_lines, if_neg hc, ih hcs]

theorem unescape_append (seg rest : List Char) (h : '\n' ∉ seg) :
    unescape (seg ++ '\n' :: rest) =
      match unescape_segment seg, unescape rest with
      | some a, some b => some (a ++ b)
      | _, _ => none := by
  unfold unescape
  simp only [split_lines_append seg rest h]
  obtain ⟨p, ps, hp⟩ : ∃ p ps, split_lines rest = p :: ps := by
    cases hs : split_lines rest with
    | nil => exact absurd hs (split_lines_ne_nil rest)
    | cons p ps => exact ⟨p, ps, rfl⟩
  rw [hp, List.getLast?_cons_cons, List.dropLast_cons₂]
  by_cases hl : (p :: ps).getLast? = some []
  · simp only [hl, if_true, unescape_segments]
  · simp only [hl, if_false, unescape_segments]
    cases unescape_segment seg <;> rfl

theorem unescape_segment_escaped (line : List Char) :
    unescape_segment (escaped_segment line) = some (line ++ "\n".toList) := by
  unfold unescape_segment escaped_segment
  simp

theorem escaped_segment_no_newline (line : List Char) (h : '\n' ∉ line) :
    '\n' ∉ escaped_segment line := by
  unfold escaped_segment
  have h1 : '\n' ≠ DQ := by decide
  have h2 : '\n' ∉ "\\n".toList := by decide
  simp only [List.mem_cons, List.mem_append, not_or, List.mem_singleton]
  exact ⟨⟨⟨h1, h⟩, h2⟩, h1, List.not_mem_nil _⟩

theorem unescape_escaped (lines : List (List Char)) (h : ∀ l ∈ lines, '\n' ∉ l) :
    unescape ((lines.map (fun l => escaped_segment l ++ "\n".toList)).flatten) =
      some ((lines.map (fun l => l ++ "\n".toList)).flatten) := by
  induction lines with
  | nil => decide
  | cons l ls ih =>
    have hl : '\n' ∉ l := h l (by simp)
    have hls : ∀ l ∈ ls, '\n' ∉ l := fun x hx => h x (by simp [hx])
    simp only [List.map_cons, List.flatten_cons, List.append_assoc]
    have : "\n".toList ++ (ls.map (fun l => escaped_segment l ++ "\n".toList)).flatten
        = '\n' :: (ls.map (fun l => escaped_segment l ++ "\n".toList)).flatten := rfl
    rw [this, unescape_append _ _ (escaped_segment_no_newline l hl), ih hls,
      unescape_segment_escaped]
    simp

/-- C4: escaping is reversible.  For every file, un-escaping the escaped text
built from its lines (split at the real newlines; from each segment the
leading double quote and the trailing backslash, `n`, double quote removed and
a newline appended) succeeds and gives back exactly the text `length` whose
number of characters is written as the true length, whatever the lines hold,
double quotes and backslashes included. -/
theorem unescape_file_text (content : List Char) :
    unescape (file_text content) = some (length_text content) ∧
    true_length content = (length_text content).length := by
  refine ⟨?_, rfl⟩
  unfold file_text length_text read_shader
  rw [foldl_add_line]
  simp only [List.nil_append]
  exact unescape_escaped _ (fun l hl =>
    read_lines_no_newline content [] (by simp) l (List.mem_of_mem_filter hl))

/-! ## Searching for the dots -/

theorem find_first_of_append (pre post : List Char) (c : Char) (h : c ∉ pre) :
    find_first_of (pre ++ c :: post) c = pre.length := by
  unfold find_first_of
  rw [if_pos (by simp), List.indexOf_append_of_not_mem h, List.indexOf_cons_self]
  rfl

theorem find_last_of_append (pre post : List Char) (c : Char) (h : c ∉ post) :
    find_last_of (pre ++ c :: post) c = pre.length := by
  unfold find_last_of
  have hrev : (pre ++ c :: post).reverse = post.reverse ++ c :: pre.reverse := by simp
  have hmem : c ∉ post.reverse := by simpa using h
  rw [if_pos (by simp), hrev, List.indexOf_append_of_not_mem hmem, List.indexOf_cons_self]
  simp only [List.length_append, List.length_cons, List.length_reverse]
  omega

theorem find_last_of_not_mem (s : List Char) (c : Char) (h : c ∉ s) :
    find_last_of s c = npos := by
  unfold find_last_of
  rw [if_neg h]

/-- A string holding `c` splits at its last `c`. -/
theorem exists_last_split (s : List Char) (c : Char) (h : c ∈ s) :
    ∃ pre post, s = pre ++ c :: post ∧ c ∉ post := by
  induction s with
  | nil => simp at h
  | cons x xs ih =>
    by_cases hxs : c ∈ xs
    · obtain ⟨pre, post, he, hp⟩ := ih hxs
      exact ⟨x :: pre, post, by rw [he]; rfl, hp⟩
    · have hx : c = x := by
        rcases List.mem_cons.1 h with h | h
        · exact h
        · exact absurd h hxs
      subst hx
      exact ⟨[], xs, rfl, hxs⟩

theorem size_sub_of_le (a b : Nat) (hb : b ≤ a) (ha : a < 2 ^ 64) : size_sub a b = a - b := by
  unfold size_sub
  have hb2 : b % 2 ^ 64 = b := Nat.mod_eq_of_lt (by omega)
  rw [hb2]
  have : a + 2 ^ 64 - b = (a - b) + 2 ^ 64 := by omega
  rw [this, Nat.add_mod_right]
  exact Nat.mod_eq_of_lt (by omega)

/-! ## The filename decoder -/

/-- C3: a name `base.subtype.glsl` whose base is non-empty and holds no `.`
(so does not start with one) is accepted by the scan, and is decoded into
`shader_name = base` and `shader_type = subtype`; the subtype may be empty
and may hold dots.  The name is a C++ string, so shorter than `2 ^ 64`. -/
theorem decode_base_subtype (base subtype : List Char)
    (hbase : base ≠ []) (hdot : '.' ∉ base)
    (hlen : (base ++ ".".toList ++ subtype ++ ".glsl".toList).length < 2 ^ 64) :
    is_shader_file (base ++ ".".toList ++ subtype ++ ".glsl".toList) = true ∧
    shader_name (base ++ ".".toList ++ subtype ++ ".glsl".toList) = base ∧
    shader_type (base ++ ".".toList ++ subtype ++ ".glsl".toList) = subtype := by
  have hfirst : find_first_of (base ++ ".".toList ++ subtype ++ ".glsl".toList) '.'
      = base.length := by
    have : base ++ ".".toList ++ subtype ++ ".glsl".toList
        = base ++ '.' :: (subtype ++ ".glsl".toList) := by simp
    rw [this, find_first_of_append _ _ _ hdot]
  have hlast : find_last_of (base ++ ".".toList ++ subtype ++ ".glsl".toList) '.'
      = base.length + 1 + subtype.length := by
    have : base ++ ".".toList ++ subtype ++ ".glsl".toList
        = (base ++ ".".toList ++ subtype) ++ '.' :: "glsl".toList := by simp
    rw [this, find_last_of_append _ _ _ (by decide)]
    simp only [List.length_append]
    rfl
  have hl : base.length + 1 + subtype.length + 5 < 2 ^ 64 := by
    have h5 : (base ++ ".".toList ++ subtype ++ ".glsl".toList).length
        = base.length + 1 + subtype.length + 5 := by
      simp only [List.length_append]
      rfl
    omega
  refine ⟨?_, ?_, ?_⟩
  · unfold is_shader_file
    have hfront : front (base ++ ".".toList ++ subtype ++ ".glsl".toList) ≠ '.' := by
      cases base with
      | nil => exact absurd rfl hbase
      | cons b bs =>
        intro h
        apply hdot
        have : b = '.' := by simpa [front] using h
        simp [this]
    rw [if_pos hfront]
    simp only [hlast]
    have hn : base.length + 1 + subtype.length ≠ npos := by
      unfold npos; omega
    rw [if_pos hn]
    have : base ++ ".".toList ++ subtype ++ ".glsl".toList
        = (base ++ ".".toList ++ subtype) ++ ".glsl".toList := by simp
    have hlen2 : (base ++ ".".toList ++ subtype).length = base.length + 1 + subtype.length := by
      simp only [List.length_append]
      rfl
    unfold substr
    rw [this, ← hlen2, List.drop_left]
    decide
  · unfold shader_name substr
    simp only [hfirst, List.drop_zero]
    rw [List.append_assoc, List.append_assoc, List.take_left]
  · unfold shader_type substr
    simp only [hfirst, hlast]
    have h1 : (base.length + 1) % 2 ^ 64 = base.length + 1 := Nat.mod_eq_of_lt (by omega)
    rw [h1, size_sub_of_le _ _ (by omega) (by omega)]
    have h2 : base.length + 1 + subtype.length - (base.length + 1) = subtype.length := by omega
    rw [h2]
    have : base ++ ".".toList ++ subtype ++ ".glsl".toList
        = (base ++ ".".toList) ++ (subtype ++ ".glsl".toList) := by simp
    have hlen2 : (base ++ ".".toList).length = base.length + 1 := by simp
    rw [this, ← hlen2, List.drop_left, List.take_left]

/-- C3 at `phong.vertex.glsl`. -/
theorem decode_base_subtype_witness :
    is_shader_file ("phong".toList ++ ".".toList ++ "vertex".toList ++ ".glsl".toList) = true ∧
    shader_name ("phong".toList ++ ".".toList ++ "vertex".toList ++ ".glsl".toList)
      = "phong".toList ∧
    shader_type ("phong".toList ++ ".".toList ++ "vertex".toList ++ ".glsl".toList)
      = "vertex".toList :=
  decode_base_subtype "phong".toList "vertex".toList (by decide) (by decide) (by decide)

/-! ## The scan in closed form -/

theorem scan_entry_skip (x o c d : List Char) (st : State) (e : Entry)
    (h : is_shader_file e.name = false) : scan_entry x o c d st e = st := by
  unfold scan_entry
  simp [h]

theorem scan_steady (x o c d : List Char) (dir : List Entry) (st : State)
    (hc : st.commented = true) (hb : st.begun = true) :
    dir.foldl (scan_entry x o c d) st =
      { st with
        filenames := st.filenames ++ accepted_names dir
        cfile := st.cfile ++ ((units_from st.id dir).map shader_block).flatten
        inst_names := st.inst_names ++ (units_from st.id dir).map ShaderUnit.shader_var_name
        id := st.id + (units_from st.id dir).length
        units := st.units ++ units_from st.id dir } := by
  induction dir generalizing st with
  | nil => simp [accepted_names, units_from]
  | cons e rest ih =>
    rw [List.foldl_cons]
    by_cases hm : is_shader_file e.name = true
    · cases hcont : e.content with
      | none =>
        have hstep : scan_entry x o c d st e
            = { st with filenames := st.filenames ++ [e.name] } := by
          unfold scan_entry
          simp [hm, hc, hb, hcont]
        rw [hstep, ih]
        · simp [accepted_names, units_from, hm, hcont, List.filter_cons]
        · exact hc
        · exact hb
      | some text =>
        have hstep : scan_entry x o c d st e
            = { st with
                filenames := st.filenames ++ [e.name]
                cfile := st.cfile ++ shader_block
                  ⟨e.name, shader_var_name e.name, file_text text, true_length text, st.id⟩
                inst_names := st.inst_names ++ [shader_var_name e.name]
                id := st.id + 1
                units := st.units ++
                  [⟨e.name, shader_var_name e.name, file_text text, true_length text, st.id⟩] } := by
          unfold scan_entry
          simp [hm, hc, hb, hcont]
        rw [hstep, ih]
        · simp [accepted_names, units_from, hm, hcont, List.filter_cons]
          omega
        · exact hc
        · exact hb
    · have hm2 : is_shader_file e.name = false := by simpa using hm
      rw [scan_entry_skip x o c d st e hm2, ih st hc hb]
      simp [accepted_names, units_from, hm2, List.filter_cons]

theorem scan_init (x o c d : List Char) (dir : List Entry) :
    dir.foldl (scan_entry x o c d) State.init =
      if accepted_names dir = [] then State.init
      else
        { of := insert_comment x o ++ header_def_start d ++ header_def_end d
          cfile := insert_comment x c ++ include_line o ++
            ((units_from 1 dir).map shader_block).flatten
          id := 1 + (units_from 1 dir).length
          commented := true
          begun := true
          filenames := accepted_names dir
          inst_names := (units_from 1 dir).map ShaderUnit.shader_var_name
          units := units_from 1 dir } := by
  induction dir with
  | nil => simp [accepted_names]
  | cons e rest ih =>
    rw [List.foldl_cons]
    by_cases hm : is_shader_file e.name = true
    · have hne : accepted_names (e :: rest) ≠ [] := by
        simp [accepted_names, hm, List.filter_cons]
      rw [if_neg hne]
      cases hcont : e.content with
      | none =>
        have hstep : scan_entry x o c d State.init e
            = { State.init with
                of := insert_comment x o ++ header_def_start d ++ header_def_end d
                cfile := insert_comment x c ++ include_line o
                commented := true
                begun := true
                filenames := [e.name] } := by
          unfold scan_entry
          simp [hm, hcont, State.init]
        rw [hstep, scan_steady _ _ _ _ _ _ rfl rfl]
        simp [accepted_names, units_from, hm, hcont, List.filter_cons, State.init]
      | some text =>
        have hstep : scan_entry x o c d State.init e
            = { of := insert_comment x o ++ header_def_start d ++ header_def_end d
                cfile := insert_comment x c ++ include_line o ++ shader_block
                  ⟨e.name, shader_var_name e.name, file_text text, true_length text, 1⟩
                id := 2
                commented := true
                begun := true
                filenames := [e.name]
                inst_names := [shader_var_name e.name]
                units :=
                  [⟨e.name, shader_var_name e.name, file_text text, true_length text, 1⟩] } := by
          unfold scan_entry
          simp [hm, hcont, State.init]
        rw [hstep, scan_steady _ _ _ _ _ _ rfl rfl]
        simp [accepted_names, units_from, hm, hcont, List.filter_cons]
        omega
    · have hm2 : is_shader_file e.name = false := by simpa using hm
      have hu : ∀ k, units_from k (e :: rest) = units_from k rest := by
        intro k
        simp [units_from, hm2]
      have ha : accepted_names (e :: rest) = accepted_names rest := by
        simp [accepted_names, hm2, List.filter_cons]
      rw [scan_entry_skip x o c d _ e hm2, ih, hu, ha]

theorem find_last_of_ne_npos (s : List Char) (c : Char) (h : c ∈ s)
    (hlen : s.length < 2 ^ 64) : find_last_of s c ≠ npos := by
  obtain ⟨pre, post, he, hp⟩ := exists_last_split s c h
  rw [he, find_last_of_append pre post c hp]
  have : pre.length < s.length := by
    rw [he]
    simp
  unfold npos
  omega

theorem main_eq (x o : List Char) (rest : List (List Char)) (dir : List Entry)
    (hdot : '.' ∈ o) (hlen : o.length < 2 ^ 64) :
    main (x :: o :: rest) dir =
      if accepted_names dir = [] then
        ⟨0, some " ".toList, some " ".toList, none, []⟩
      else
        ⟨0,
          some (insert_comment x o ++ header_def_start (macro_name o) ++
            header_def_end (macro_name o) ++ file_listing (accepted_names dir) ++
            "\n".toList ++ endl),
          some (insert_comment x (source_name o) ++ include_line o ++
            ((units_from 1 dir).map shader_block).flatten ++
            file_listing (accepted_names dir) ++ "\n".toList ++ endl),
          some (externs_text ((units_from 1 dir).map ShaderUnit.shader_var_name)),
          units_from 1 dir⟩ := by
  unfold main
  simp only [if_neg (find_last_of_ne_npos o '.' hdot hlen), scan_init]
  by_cases h : accepted_names dir = []
  · simp only [h, if_true]
    simp [State.init]
  · simp only [h, if_false]
    simp


/-! ## The filter of the scan and the filter of the specification -/

theorem takeWhile_ne_append (l1 l2 : List Char) (c : Char) (h : c ∉ l1) :
    (l1 ++ c :: l2).takeWhile (fun x => decide (x ≠ c)) = l1 := by
  induction l1 with
  | nil => simp
  | cons a as ih =>
    have ha : a ≠ c := fun e => h (by simp [e])
    have has : c ∉ as := fun e => h (by simp [e])
    show List.takeWhile _ (a :: (as ++ c :: l2)) = a :: as
    rw [List.takeWhile_cons, if_pos (by simpa using ha), ih has]

theorem from_last_dot_append (pre post : List Char) (h : '.' ∉ post) :
    from_last_dot (pre ++ '.' :: post) = '.' :: post := by
  unfold from_last_dot
  have hrev : (pre ++ '.' :: post).reverse = post.reverse ++ '.' :: pre.reverse := by simp
  rw [hrev, takeWhile_ne_append _ _ _ (by simpa using h), List.reverse_reverse]

theorem front_ne_dot_iff (name : List Char) (h : '.' ∈ name) :
    front name ≠ '.' ↔ name.head? ≠ some '.' := by
  cases name with
  | nil => simp at h
  | cons c cs => simp [front]

theorem is_shader_file_eq_is_matched (name : List Char) (hlen : name.length < 2 ^ 64) :
    is_shader_file name = is_matched name := by
  by_cases hd : '.' ∈ name
  · obtain ⟨pre, post, he, hp⟩ := exists_last_split name '.' hd
    have hlast : find_last_of name '.' = pre.length := by
      rw [he, find_last_of_append pre post '.' hp]
    have hn : find_last_of name '.' ≠ npos := find_last_of_ne_npos name '.' hd hlen
    have hsub : substr name (find_last_of name '.') npos = '.' :: post := by
      rw [hlast]
      unfold substr
      rw [he, List.drop_left]
      apply List.take_of_length_le
      have : name.length = pre.length + (post.length + 1) := by rw [he]; simp
      simp only [List.length_cons]
      unfold npos
      omega
    have hfrom : from_last_dot name = '.' :: post := by
      rw [he, from_last_dot_append pre post hp]
    unfold is_shader_file is_matched
    simp only [hsub, hfrom, hn]
    by_cases hf : front name ≠ '.'
    · have hh := (front_ne_dot_iff name hd).1 hf
      simp [hf, hh, hd, hn]
    · have hh : ¬ (name.head? ≠ some '.') := fun h => hf ((front_ne_dot_iff name hd).2 h)
      simp [hf, hh]
  · unfold is_shader_file is_matched
    simp [find_last_of_not_mem name '.' hd, hd]

theorem filter_shader_file_eq (dir : List Entry) (hdir : ∀ e ∈ dir, e.name.length < 2 ^ 64) :
    dir.filter (fun e => is_shader_file e.name) = dir.filter (fun e => is_matched e.name) :=
  List.filter_congr (fun e he => is_shader_file_eq_is_matched e.name (hdir e he))

/-! ## The record instantiations of a scan -/

theorem units_from_ids (k : Nat) (dir : List Entry) :
    (units_from k dir).map ShaderUnit.id = List.range' k (units_from k dir).length := by
  induction dir generalizing k with
  | nil => simp [units_from]
  | cons e rest ih =>
    unfold units_from
    by_cases hm : is_shader_file e.name = true
    · cases hcont : e.content with
      | none => simp [hm, ih]
      | some text => simp [hm, ih, List.range'_succ]
    · simp [hm, ih]

theorem units_from_filenames (k : Nat) (dir : List Entry) :
    (units_from k dir).map ShaderUnit.filename =
      (dir.filter (fun e => is_shader_file e.name && e.content.isSome)).map Entry.name := by
  induction dir generalizing k with
  | nil => simp [units_from]
  | cons e rest ih =>
    unfold units_from
    by_cases hm : is_shader_file e.name = true
    · cases hcont : e.content with
      | none => simp [hm, hcont, ih, List.filter_cons]
      | some text => simp [hm, hcont, ih, List.filter_cons]
    · simp [hm, ih, List.filter_cons]

theorem units_from_filter (k : Nat) (dir : List Entry) :
    units_from k (dir.filter (fun e => is_shader_file e.name)) = units_from k dir := by
  induction dir generalizing k with
  | nil => rfl
  | cons e rest ih =>
    by_cases hm : is_shader_file e.name = true
    · rw [List.filter_cons_of_pos (by simpa using hm)]
      unfold units_from
      cases hcont : e.content with
      | none => simp [hm, ih]
      | some text => simp [hm, ih]
    · rw [List.filter_cons_of_neg (by simpa using hm), ih]
      simp [units_from, hm]

theorem accepted_names_filter (dir : List Entry) :
    accepted_names (dir.filter (fun e => is_shader_file e.name)) = accepted_names dir := by
  unfold accepted_names
  rw [List.filter_filter]
  simp

theorem unit_filter_eq (dir : List Entry) (hdir : ∀ e ∈ dir, e.name.length < 2 ^ 64) :
    dir.filter (fun e => is_shader_file e.name && e.content.isSome) = dir.filter is_unit :=
  List.filter_congr (fun e he => by
    unfold is_unit
    rw [is_shader_file_eq_is_matched e.name (hdir e he)])

theorem accepted_names_eq (dir : List Entry) (hdir : ∀ e ∈ dir, e.name.length < 2 ^ 64) :
    accepted_names dir = (dir.filter (fun e => is_matched e.name)).map Entry.name := by
  unfold accepted_names
  rw [filter_shader_file_eq dir hdir]

theorem units_from_length (k : Nat) (dir : List Entry)
    (hdir : ∀ e ∈ dir, e.name.length < 2 ^ 64) :
    (units_from k dir).length = (dir.filter is_unit).length := by
  have h := congrArg List.length (units_from_filenames k dir)
  rw [List.length_map, List.length_map, unit_filter_eq dir hdir] at h
  exact h

theorem main_units (x o : List Char) (rest : List (List Char)) (dir : List Entry)
    (hdot : '.' ∈ o) (hlen : o.length < 2 ^ 64) :
    (main (x :: o :: rest) dir).units = units_from 1 dir := by
  rw [main_eq x o rest dir hdot hlen]
  by_cases h : accepted_names dir = []
  · rw [if_pos h]
    have : dir.filter (fun e => is_shader_file e.name) = [] := by
      simpa [accepted_names] using h
    rw [← units_from_filter, this]
    rfl
  · rw [if_neg h]

/-! ## The ids -/

/-- C6 as stated fails: with an unreadable `a.vertex.glsl` listed before a
readable `b.vertex.glsl`, two files are matched, and the ids written are not
`1, 2`: the only id written is `1`. -/
theorem ids_unreadable_counterexample :
    ¬ ((main ["glsl_to_c".toList, "shaders.h".toList]
          [⟨"a.vertex.glsl".toList, none⟩,
           ⟨"b.vertex.glsl".toList, some "void main();\n".toList⟩]).units.map ShaderUnit.id
        = List.range' 1
          ([(⟨"a.vertex.glsl".toList, none⟩ : Entry),
            ⟨"b.vertex.glsl".toList, some "void main();\n".toList⟩].filter
              (fun e => is_matched e.name)).length) := by
  decide

/-- C6 as amended: in a run that scans (the output filename holds a `.`), the
record instantiations written to the source output are those of the matched
entries that could be read, in the order of the listing, and their ids are
exactly `1, 2, ..., M`, with `M` the number of these entries. -/
theorem ids_contiguous (x o : List Char) (rest : List (List Char)) (dir : List Entry)
    (hdot : '.' ∈ o) (hlen : o.length < 2 ^ 64)
    (hdir : ∀ e ∈ dir, e.name.length < 2 ^ 64) :
    (main (x :: o :: rest) dir).units.map ShaderUnit.id
      = List.range' 1 (dir.filter is_unit).length ∧
    (main (x :: o :: rest) dir).units.map ShaderUnit.filename
      = (dir.filter is_unit).map Entry.name ∧
    (main (x :: o :: rest) dir).source =
      some (if dir.filter (fun e => is_matched e.name) = [] then " ".toList
        else insert_comment x (source_name o) ++ include_line o ++
          ((main (x :: o :: rest) dir).units.map shader_block).flatten ++
          file_listing ((dir.filter (fun e => is_matched e.name)).map Entry.name) ++
          "\n".toList ++ endl) := by
  rw [main_units x o rest dir hdot hlen]
  refine ⟨?_, ?_, ?_⟩
  · rw [units_from_ids, units_from_length 1 dir hdir]
  · rw [units_from_filenames, unit_filter_eq dir hdir]
  · rw [main_eq x o rest dir hdot hlen, accepted_names_eq dir hdir]
    by_cases h : dir.filter (fun e => is_matched e.name) = []
    · simp [h]
    · simp [h]

/-- C6 as amended, at a listing whose first matched file cannot be read. -/
theorem ids_contiguous_witness :
    (main ["glsl_to_c".toList, "shaders.h".toList]
        [⟨"a.vertex.glsl".toList, none⟩,
         ⟨"b.vertex.glsl".toList, some "void main();\n".toList⟩]).units.map ShaderUnit.id
      = List.range' 1
        ([(⟨"a.vertex.glsl".toList, none⟩ : Entry),
          ⟨"b.vertex.glsl".toList, some "void main();\n".toList⟩].filter is_unit).length :=
  (ids_contiguous "glsl_to_c".toList "shaders.h".toList []
    [⟨"a.vertex.glsl".toList, none⟩, ⟨"b.vertex.glsl".toList, some "void main();\n".toList⟩]
    (by decide) (by decide) (by decide)).1

/-! ## The externs file -/

theorem foldl_extern_lines (names : List (List Char)) (init : List Char) :
    names.foldl
      (fun out name => out ++ "extern SHADER_TYPE_NAME ".toList ++ name ++ ";\n".toList) init
      = init ++ (names.map extern_line).flatten := by
  induction names generalizing init with
  | nil => simp
  | cons n ns ih =>
    rw [List.foldl_cons, ih]
    simp [extern_line]

theorem units_from_var_names (k : Nat) (dir : List Entry) :
    (units_from k dir).map ShaderUnit.shader_var_name =
      (dir.filter (fun e => is_shader_file e.name && e.content.isSome)).map
        (fun e => shader_var_name e.name) := by
  induction dir generalizing k with
  | nil => simp [units_from]
  | cons e rest ih =>
    unfold units_from
    by_cases hm : is_shader_file e.name = true
    · cases hcont : e.content with
      | none => simp [hm, hcont, ih, List.filter_cons]
      | some text => simp [hm, hcont, ih, List.filter_cons]
    · simp [hm, ih, List.filter_cons]

theorem main_externs (x o : List Char) (rest : List (List Char)) (dir : List Entry)
    (hdot : '.' ∈ o) (hlen : o.length < 2 ^ 64)
    (hdir : ∀ e ∈ dir, e.name.length < 2 ^ 64)
    (hunit : dir.filter is_unit ≠ []) :
    (main (x :: o :: rest) dir).externs =
      some (externs_banner ++
        ((dir.filter is_unit).map (fun e => extern_line (shader_var_name e.name))).flatten ++
        endl) := by
  have hacc : accepted_names dir ≠ [] := by
    rw [accepted_names_eq dir hdir]
    intro h
    apply hunit
    have h2 : dir.filter (fun e => is_matched e.name) = [] := by simpa using h
    rw [List.filter_eq_nil_iff] at h2 ⊢
    intro e he hu
    apply h2 e he
    unfold is_unit at hu
    simp only [Bool.and_eq_true] at hu
    exact hu.1
  rw [main_eq x o rest dir hdot hlen, if_neg hacc]
  simp only [externs_text, foldl_extern_lines, units_from_var_names, unit_filter_eq dir hdir,
    List.nil_append, List.map_map]
  rfl

/-- C7: in a run that writes at least one record instantiation, the externs
file holds its banner comment, then one line
`extern SHADER_TYPE_NAME <instance name>;` for each matched and readable
entry, in the order of the listing, then the closing newline, and nothing
else.  For the listing `a.vertex.glsl`, `a.fragment.glsl` these are the two
lines for `A_vertex` and `A_fragment`, in the order of the listing. -/
theorem externs_one_line_per_unit (x o : List Char) (rest : List (List Char))
    (dir : List Entry) (c1 c2 : List Char)
    (hdot : '.' ∈ o) (hlen : o.length < 2 ^ 64)
    (hdir : ∀ e ∈ dir, e.name.length < 2 ^ 64)
    (hunit : dir.filter is_unit ≠ []) :
    (main (x :: o :: rest) dir).externs =
      some (externs_banner ++
        ((dir.filter is_unit).map (fun e => extern_line (shader_var_name e.name))).flatten ++
        endl) ∧
    (main (x :: o :: rest)
        [⟨"a.vertex.glsl".toList, some c1⟩, ⟨"a.fragment.glsl".toList, some c2⟩]).externs =
      some (externs_banner ++
        "extern SHADER_TYPE_NAME A_vertex;\n".toList ++
        "extern SHADER_TYPE_NAME A_fragment;\n".toList ++ endl) ∧
    (main (x :: o :: rest)
        [⟨"a.fragment.glsl".toList, some c2⟩, ⟨"a.vertex.glsl".toList, some c1⟩]).externs =
      some (externs_banner ++
        "extern SHADER_TYPE_NAME A_fragment;\n".toList ++
        "extern SHADER_TYPE_NAME A_vertex;\n".toList ++ endl) := by
  have hv : is_matched "a.vertex.glsl".toList = true := by decide
  have hf : is_matched "a.fragment.glsl".toList = true := by decide
  have hvn : extern_line (shader_var_name "a.vertex.glsl".toList)
      = "extern SHADER_TYPE_NAME A_vertex;\n".toList := by decide
  have hfn : extern_line (shader_var_name "a.fragment.glsl".toList)
      = "extern SHADER_TYPE_NAME A_fragment;\n".toList := by decide
  have hu1 : is_unit ⟨"a.vertex.glsl".toList, some c1⟩ = true := by
    show (is_matched "a.vertex.glsl".toList && (some c1).isSome) = true
    rw [hv]
    rfl
  have hu2 : is_unit ⟨"a.fragment.glsl".toList, some c2⟩ = true := by
    show (is_matched "a.fragment.glsl".toList && (some c2).isSome) = true
    rw [hf]
    rfl
  have hl1 : (⟨"a.vertex.glsl".toList, some c1⟩ : Entry).name.length < 2 ^ 64 := by
    show "a.vertex.glsl".toList.length < 2 ^ 64
    decide
  have hl2 : (⟨"a.fragment.glsl".toList, some c2⟩ : Entry).name.length < 2 ^ 64 := by
    show "a.fragment.glsl".toList.length < 2 ^ 64
    decide
  refine ⟨main_externs x o rest dir hdot hlen hdir hunit, ?_, ?_⟩
  · have hd : ∀ e ∈ [(⟨"a.vertex.glsl".toList, some c1⟩ : Entry),
        ⟨"a.fragment.glsl".toList, some c2⟩], e.name.length < 2 ^ 64 := by
      intro e he
      rcases List.mem_cons.1 he with h | h
      · rw [h]; exact hl1
      · rw [List.mem_singleton.1 h]; exact hl2
    have hfilt : [(⟨"a.vertex.glsl".toList, some c1⟩ : Entry),
        ⟨"a.fragment.glsl".toList, some c2⟩].filter is_unit
        = [⟨"a.vertex.glsl".toList, some c1⟩, ⟨"a.fragment.glsl".toList, some c2⟩] := by
      rw [List.filter_cons_of_pos hu1, List.filter_cons_of_pos hu2, List.filter_nil]
    rw [main_externs x o rest _ hdot hlen hd (by rw [hfilt]; exact List.cons_ne_nil _ _), hfilt]
    show some (externs_banner ++
      (extern_line (shader_var_name "a.vertex.glsl".toList) ++
        (extern_line (shader_var_name "a.fragment.glsl".toList) ++ [])) ++ endl) = _
    rw [hvn, hfn, List.append_nil, ← List.append_assoc externs_banner]
  · have hd : ∀ e ∈ [(⟨"a.fragment.glsl".toList, some c2⟩ : Entry),
        ⟨"a.vertex.glsl".toList, some c1⟩], e.name.length < 2 ^ 64 := by
      intro e he
      rcases List.mem_cons.1 he with h | h
      · rw [h]; exact hl2
      · rw [List.mem_singleton.1 h]; exact hl1
    have hfilt : [(⟨"a.fragment.glsl".toList, some c2⟩ : Entry),
        ⟨"a.vertex.glsl".toList, some c1⟩].filter is_unit
        = [⟨"a.fragment.glsl".toList, some c2⟩, ⟨"a.vertex.glsl".toList, some c1⟩] := by
      rw [List.filter_cons_of_pos hu2, List.filter_cons_of_pos hu1, List.filter_nil]
    rw [main_externs x o rest _ hdot hlen hd (by rw [hfilt]; exact List.cons_ne_nil _ _), hfilt]
    show some (externs_banner ++
      (extern_line (shader_var_name "a.fragment.glsl".toList) ++
        (extern_line (shader_var_name "a.vertex.glsl".toList) ++ [])) ++ endl) = _
    rw [hvn, hfn, List.append_nil, ← List.append_assoc externs_banner]

set_option maxRecDepth 100000 in
/-- C7 at a listing of three entries, one of them not a shader file. -/
theorem externs_one_line_per_unit_witness :
    (main ["glsl_to_c".toList, "shaders.h".toList]
        [⟨"phong.vertex.glsl".toList, some "void main();\n".toList⟩,
         ⟨"notes.txt".toList, some "x\n".toList⟩,
         ⟨"phong.fragment.glsl".toList, some "void main();\n".toList⟩]).externs =
      some (externs_banner ++
        "extern SHADER_TYPE_NAME PHONG_vertex;\n".toList ++
        "extern SHADER_TYPE_NAME PHONG_fragment;\n".toList ++ endl) :=
  (externs_one_line_per_unit "glsl_to_c".toList "shaders.h".toList []
    [⟨"phong.vertex.glsl".toList, some "void main();\n".toList⟩,
     ⟨"notes.txt".toList, some "x\n".toList⟩,
     ⟨"phong.fragment.glsl".toList, some "void main();\n".toList⟩] [] []
    (by decide) (by decide) (by decide) (by decide)).1

/-! ## A run that matches no file -/

/-- C8: with an output filename that holds a `.` and a listing none of whose
entries is matched, the run exits with 0 and the header output and the source
output are each exactly one blank. -/
theorem no_match_placeholder (x o : List Char) (rest : List (List Char)) (dir : List Entry)
    (hdot : '.' ∈ o) (hlen : o.length < 2 ^ 64)
    (hdir : ∀ e ∈ dir, e.name.length < 2 ^ 64)
    (hnone : ∀ e ∈ dir, is_matched e.name = false) :
    (main (x :: o :: rest) dir).exit_code = 0 ∧
    (main (x :: o :: rest) dir).header = some " ".toList ∧
    (main (x :: o :: rest) dir).source = some " ".toList := by
  have hacc : accepted_names dir = [] := by
    rw [accepted_names_eq dir hdir, List.map_eq_nil_iff, List.filter_eq_nil_iff]
    intro e he
    rw [hnone e he]
    exact Bool.false_ne_true
  rw [main_eq x o rest dir hdot hlen, if_pos hacc]
  exact ⟨rfl, rfl, rfl⟩

/-- C8 at a listing holding a hidden shader file, a text file and a name
with no dot. -/
theorem no_match_placeholder_witness :
    (main ["glsl_to_c".toList, "shaders.h".toList]
        [⟨".hidden.vertex.glsl".toList, some "x\n".toList⟩,
         ⟨"notes.txt".toList, some "x\n".toList⟩,
         ⟨"Makefile".toList, none⟩]).exit_code = 0 ∧
    (main ["glsl_to_c".toList, "shaders.h".toList]
        [⟨".hidden.vertex.glsl".toList, some "x\n".toList⟩,
         ⟨"notes.txt".toList, some "x\n".toList⟩,
         ⟨"Makefile".toList, none⟩]).header = some " ".toList ∧
    (main ["glsl_to_c".toList, "shaders.h".toList]
        [⟨".hidden.vertex.glsl".toList, some "x\n".toList⟩,
         ⟨"notes.txt".toList, some "x\n".toList⟩,
         ⟨"Makefile".toList, none⟩]).source = some " ".toList :=
  no_match_placeholder "glsl_to_c".toList "shaders.h".toList []
    [⟨".hidden.vertex.glsl".toList, some "x\n".toList⟩,
     ⟨"notes.txt".toList, some "x\n".toList⟩,
     ⟨"Makefile".toList, none⟩]
    (by decide) (by decide) (by decide) (by decide)

/-! ## Transparency of the filter -/

theorem main_filter (argv : List (List Char)) (dir : List Entry) :
    main argv (dir.filter (fun e => is_shader_file e.name)) = main argv dir := by
  unfold main
  simp only [scan_init, accepted_names_filter, units_from_filter]

/-- C9: the filter is transparent.  For every argument vector and every
listing, the three outputs and the exit code are those of the run on the
listing without the entries whose name starts with `.`, holds no `.`, or
has a text from its last `.` on other than `.glsl`. -/
theorem filter_transparent (argv : List (List Char)) (dir : List Entry)
    (hdir : ∀ e ∈ dir, e.name.length < 2 ^ 64) :
    (main argv dir).header = (main argv (dir.filter (fun e => is_matched e.name))).header ∧
    (main argv dir).source = (main argv (dir.filter (fun e => is_matched e.name))).source ∧
    (main argv dir).externs = (main argv (dir.filter (fun e => is_matched e.name))).externs ∧
    (main argv dir).exit_code
      = (main argv (dir.filter (fun e => is_matched e.name))).exit_code := by
  rw [← filter_shader_file_eq dir hdir, main_filter]
  exact ⟨rfl, rfl, rfl, rfl⟩

set_option maxRecDepth 100000 in
/-- C9 at a listing with a hidden shader file and a text file around one
shader file. -/
theorem filter_transparent_witness :
    (main ["glsl_to_c".toList, "shaders.h".toList]
        [⟨".hidden.vertex.glsl".toList, some "x\n".toList⟩,
         ⟨"a.vertex.glsl".toList, some "void main();\n".toList⟩,
         ⟨"notes.txt".toList, some "x\n".toList⟩]).source
      = (main ["glsl_to_c".toList, "shaders.h".toList]
          [⟨"a.vertex.glsl".toList, some "void main();\n".toList⟩]).source :=
  (filter_transparent ["glsl_to_c".toList, "shaders.h".toList]
    [⟨".hidden.vertex.glsl".toList, some "x\n".toList⟩,
     ⟨"a.vertex.glsl".toList, some "void main();\n".toList⟩,
     ⟨"notes.txt".toList, some "x\n".toList⟩] (by decide)).2.1

/-! ## The lines read and the lines of the text -/

theorem split_lines_newline (s t : List Char) :
    split_lines (s ++ '\n' :: t) = split_lines s ++ split_lines t := by
  induction s with
  | nil => simp [split_lines]
  | cons c cs ih =>
    by_cases hc : c = '\n'
    · simp [split_lines, hc, ih]
    · rw [List.cons_append, split_lines, if_neg hc, ih, split_lines, if_neg hc]
      cases hs : split_lines cs with
      | nil => exact absurd hs (split_lines_ne_nil cs)
      | cons l ls => rfl

theorem read_lines_eq (content cur : List Char) :
    read_lines content cur =
      ((split_lines content).modifyHead (fun l => cur ++ l)).dropLast := by
  induction content generalizing cur with
  | nil => simp [read_lines, split_lines]
  | cons c rest ih =>
    obtain ⟨p, ps, hp⟩ : ∃ p ps, split_lines rest = p :: ps := by
      cases hs : split_lines rest with
      | nil => exact absurd hs (split_lines_ne_nil rest)
      | cons p ps => exact ⟨p, ps, rfl⟩
    by_cases hc : c = '\n'
    · rw [read_lines, if_pos hc, split_lines, if_pos hc, ih, hp]
      simp
    · rw [read_lines, if_neg hc, split_lines, if_neg hc, ih, hp]
      simp

/-- For a file that ends in a newline, the string `length` is the
comment-stripped text of the specification. -/
theorem length_text_terminated (body : List Char) :
    length_text (body ++ "\n".toList) = stripped_text (body ++ "\n".toList) := by
  have hsplit : split_lines (body ++ "\n".toList) = split_lines body ++ [[]] := by
    have h := split_lines_newline body []
    simpa [split_lines] using h
  have hread : read_lines (body ++ "\n".toList) [] = split_lines body := by
    rw [read_lines_eq, hsplit]
    cases hs : split_lines body with
    | nil => exact absurd hs (split_lines_ne_nil body)
    | cons l ls =>
      have h2 : ((l :: ls) ++ [[]]).dropLast = l :: ls := List.dropLast_concat
      simpa using h2
  unfold length_text read_shader stripped_text
  rw [foldl_add_line, hread, hsplit, List.filter_append]
  have hk : kept = fun l => decide (l ≠ [] ∧ l.take 2 ≠ "//".toList) := by
    funext l
    simp [kept, substr]
  simp [hk]

/-! ## Exit codes and the streams that are opened -/

theorem main_no_dot (x o : List Char) (rest : List (List Char)) (dir : List Entry)
    (h : '.' ∉ o) : main (x :: o :: rest) dir = ⟨0, some [], none, none, []⟩ := by
  unfold main
  simp only [find_last_of_not_mem o '.' h, if_true]

theorem main_exit_zero (x o : List Char) (rest : List (List Char)) (dir : List Entry) :
    (main (x :: o :: rest) dir).exit_code = 0 := by
  unfold main
  simp only
  split
  · rfl
  · split <;> rfl

/-- C11 as stated fails: run with the output filename `shaders.h` on an empty
directory, the program does not write the externs file. -/
theorem externs_not_written_counterexample :
    ¬ ((main ["glsl_to_c".toList, "shaders.h".toList] []).externs.isSome = true) := by
  decide

/-- C11 as amended: in a run that is given an output filename, the externs
file is written exactly when the output filename holds a `.` and at least one
entry of the directory is matched. -/
theorem externs_written_iff (x o : List Char) (rest : List (List Char)) (dir : List Entry)
    (hlen : o.length < 2 ^ 64) (hdir : ∀ e ∈ dir, e.name.length < 2 ^ 64) :
    (main (x :: o :: rest) dir).externs.isSome = true ↔
      ('.' ∈ o ∧ dir.filter (fun e => is_matched e.name) ≠ []) := by
  by_cases hdot : '.' ∈ o
  · rw [main_eq x o rest dir hdot hlen, accepted_names_eq dir hdir]
    by_cases hm : dir.filter (fun e => is_matched e.name) = []
    · simp [hm, hdot]
    · simp [hm, hdot]
  · rw [main_no_dot x o rest dir hdot]
    simp [hdot]

/-- C11 as amended, at a listing with one shader file that cannot be read. -/
theorem externs_written_iff_witness :
    (main ["glsl_to_c".toList, "shaders.h".toList]
        [⟨"a.vertex.glsl".toList, none⟩]).externs.isSome = true ↔
      ('.' ∈ "shaders.h".toList ∧
        [(⟨"a.vertex.glsl".toList, none⟩ : Entry)].filter (fun e => is_matched e.name) ≠ []) :=
  externs_written_iff "glsl_to_c".toList "shaders.h".toList []
    [⟨"a.vertex.glsl".toList, none⟩] (by decide) (by decide)

/-- C12: the exit code is 1 exactly when the argument vector has fewer than
two entries, and then no output stream is opened; every other run exits
with 0, whatever the output filename and the directory are. -/
theorem exit_code_spec (argv : List (List Char)) (dir : List Entry) :
    ((main argv dir).exit_code = 1 ↔ argv.length < 2) ∧
    (argv.length < 2 →
      (main argv dir).header = none ∧ (main argv dir).source = none ∧
      (main argv dir).externs = none) ∧
    (2 ≤ argv.length → (main argv dir).exit_code = 0) := by
  match argv with
  | [] => exact ⟨by simp [main], fun _ => ⟨rfl, rfl, rfl⟩, fun h => absurd h (by simp)⟩
  | [x] => exact ⟨by simp [main], fun _ => ⟨rfl, rfl, rfl⟩, fun h => absurd h (by simp)⟩
  | x :: o :: rest =>
    have h0 := main_exit_zero x o rest dir
    refine ⟨?_, fun h => ?_, fun _ => h0⟩
    · rw [h0]
      simp
    · simp only [List.length_cons] at h
      omega

/-- C12 at a run without the argument and at a run whose output filename
has no dot. -/
theorem exit_code_spec_witness :
    (main ["glsl_to_c".toList] [⟨"a.vertex.glsl".toList, none⟩]).header = none ∧
    (main ["glsl_to_c".toList, "shaders".toList] [⟨"a.vertex.glsl".toList, none⟩]).exit_code
      = 0 :=
  ⟨((exit_code_spec ["glsl_to_c".toList] [⟨"a.vertex.glsl".toList, none⟩]).2.1
      (by decide)).1,
    (exit_code_spec ["glsl_to_c".toList, "shaders".toList]
      [⟨"a.vertex.glsl".toList, none⟩]).2.2 (by decide)⟩

/-- C13: with an output filename that holds no `.`, whatever the directory
holds, the run exits with 0, the header stream is opened and nothing is
written to it, the source stream and the externs file are never opened, and
no record instantiation is written. -/
theorem no_dot_nothing_written (x o : List Char) (rest : List (List Char)) (dir : List Entry)
    (hdot : '.' ∉ o) :
    (main (x :: o :: rest) dir).exit_code = 0 ∧
    (main (x :: o :: rest) dir).header = some [] ∧
    (main (x :: o :: rest) dir).source = none ∧
    (main (x :: o :: rest) dir).externs = none ∧
    (main (x :: o :: rest) dir).units = [] := by
  rw [main_no_dot x o rest dir hdot]
  exact ⟨rfl, rfl, rfl, rfl, rfl⟩

/-- C13 at the output filename `shaders` and a directory with a readable
shader file. -/
theorem no_dot_nothing_written_witness :
    (main ["glsl_to_c".toList, "shaders".toList]
        [⟨"a.vertex.glsl".toList, some "void main();\n".toList⟩]).exit_code = 0 ∧
    (main ["glsl_to_c".toList, "shaders".toList]
        [⟨"a.vertex.glsl".toList, some "void main();\n".toList⟩]).header = some [] ∧
    (main ["glsl_to_c".toList, "shaders".toList]
        [⟨"a.vertex.glsl".toList, some "void main();\n".toList⟩]).source = none ∧
    (main ["glsl_to_c".toList, "shaders".toList]
        [⟨"a.vertex.glsl".toList, some "void main();\n".toList⟩]).externs = none ∧
    (main ["glsl_to_c".toList, "shaders".toList]
        [⟨"a.vertex.glsl".toList, some "void main();\n".toList⟩]).units = [] :=
  no_dot_nothing_written "glsl_to_c".toList "shaders".toList []
    [⟨"a.vertex.glsl".toList, some "void main();\n".toList⟩] (by decide)

/-! ## Files that cannot be read -/

theorem units_from_readable (k : Nat) (dir : List Entry) :
    units_from k (dir.filter (fun e => e.content.isSome)) = units_from k dir := by
  induction dir generalizing k with
  | nil => rfl
  | cons e rest ih =>
    cases hcont : e.content with
    | none =>
      rw [List.filter_cons_of_neg (by simp [hcont]), ih]
      by_cases hm : is_shader_file e.name = true
      · simp [units_from, hm, hcont]
      · simp [units_from, hm]
    | some text =>
      rw [List.filter_cons_of_pos (by simp [hcont])]
      by_cases hm : is_shader_file e.name = true
      · simp [units_from, hm, hcont, ih]
      · simp [units_from, hm, ih]

theorem units_from_nil_of_no_unit (k : Nat) (dir : List Entry)
    (hdir : ∀ e ∈ dir, e.name.length < 2 ^ 64) (h : dir.filter is_unit = []) :
    units_from k dir = [] := by
  have hl := units_from_length k dir hdir
  rw [h] at hl
  exact List.length_eq_zero.1 hl

/-- C14: a matched file that cannot be read is skipped and nothing else
changes.  The record instantiations of a run (filename, instance name,
escaped text, true length and id of each) are those of the run on the listing
without its unreadable entries; the source output holds the blocks of exactly
these, and the externs file, when written, one line for each of them. -/
theorem unreadable_skipped (x o : List Char) (rest : List (List Char)) (dir : List Entry)
    (hdot : '.' ∈ o) (hlen : o.length < 2 ^ 64)
    (hdir : ∀ e ∈ dir, e.name.length < 2 ^ 64) :
    (main (x :: o :: rest) dir).units
      = (main (x :: o :: rest) (dir.filter (fun e => e.content.isSome))).units ∧
    (main (x :: o :: rest) dir).source =
      some (if dir.filter (fun e => is_matched e.name) = [] then " ".toList
        else insert_comment x (source_name o) ++ include_line o ++
          ((main (x :: o :: rest) (dir.filter (fun e => e.content.isSome))).units.map
            shader_block).flatten ++
          file_listing ((dir.filter (fun e => is_matched e.name)).map Entry.name) ++
          "\n".toList ++ endl) ∧
    (main (x :: o :: rest) dir).externs =
      (if dir.filter (fun e => is_matched e.name) = [] then none
        else some (externs_banner ++
          ((main (x :: o :: rest) (dir.filter (fun e => e.content.isSome))).units.map
            (fun u => extern_line u.shader_var_name)).flatten ++ endl)) := by
  have hf := main_units x o rest (dir.filter (fun e => e.content.isSome)) hdot hlen
  rw [units_from_readable] at hf
  rw [hf]
  refine ⟨main_units x o rest dir hdot hlen, ?_, ?_⟩
  · rw [main_eq x o rest dir hdot hlen, accepted_names_eq dir hdir]
    by_cases h : dir.filter (fun e => is_matched e.name) = []
    · simp [h]
    · simp [h]
  · rw [main_eq x o rest dir hdot hlen, accepted_names_eq dir hdir]
    by_cases h : dir.filter (fun e => is_matched e.name) = []
    · simp [h]
    · have hne : (dir.filter (fun e => is_matched e.name)).map Entry.name ≠ [] := by
        simpa using h
      rw [if_neg hne, if_neg h]
      show some (externs_text _) = _
      unfold externs_text
      rw [foldl_extern_lines, List.nil_append, List.map_map]
      rfl

set_option maxRecDepth 100000 in
/-- C14 at a listing whose first shader file cannot be read. -/
theorem unreadable_skipped_witness :
    (main ["glsl_to_c".toList, "shaders.h".toList]
        [⟨"a.vertex.glsl".toList, none⟩,
         ⟨"b.vertex.glsl".toList, some "void main();\n".toList⟩]).units
      = (main ["glsl_to_c".toList, "shaders.h".toList]
          [⟨"b.vertex.glsl".toList, some "void main();\n".toList⟩]).units :=
  (unreadable_skipped "glsl_to_c".toList "shaders.h".toList []
    [⟨"a.vertex.glsl".toList, none⟩, ⟨"b.vertex.glsl".toList, some "void main();\n".toList⟩]
    (by decide) (by decide) (by decide)).1

/-! ## The subtype of a name with one dot -/

/-- C16 (code at the failing input): the name `x.glsl` is accepted and its
base name is `x`; the text strictly between its first and its last `.` is
empty, and the program takes `glsl` for its subtype, so that the instance
name is `X_glsl`. -/
theorem shader_type_single_dot :
    is_shader_file "x.glsl".toList = true ∧
    shader_name "x.glsl".toList = "x".toList ∧
    between_dots "x.glsl".toList = [] ∧
    shader_type "x.glsl".toList = "glsl".toList ∧
    shader_var_name "x.glsl".toList = "X_glsl".toList := by
  decide

/-! ## The file listing -/

theorem foldl_listing_lines (names : List (List Char)) (init : List Char) :
    names.foldl (fun out file => out ++ "// ".toList ++ file ++ endl) init
      = init ++ (names.map listing_line).flatten := by
  induction names generalizing init with
  | nil => simp
  | cons n ns ih =>
    rw [List.foldl_cons, ih]
    simp [listing_line, endl]

theorem file_listing_eq (names : List (List Char)) :
    file_listing names = listing_block names := by
  unfold file_listing listing_block
  rw [foldl_listing_lines, List.nil_append]
  have h1 : "//\n// Summary of all files used for generation of this header:\n//".toList ++ endl
      = "//\n// Summary of all files used for generation of this header:\n//\n".toList := by
    decide
  have h2 : "//".toList ++ endl = "//\n".toList := by decide
  rw [h1, List.append_assoc _ "//".toList endl, h2]

/-- C17: in a run that matches at least one file, the header output and the
source output both end in the same file-listing block followed by two
newlines; the block holds, between its opening and closing lines, one line
`// <filename>` for every matched filename, in the order of the listing and
with the filename as it is. -/
theorem listing_identical (x o : List Char) (rest : List (List Char)) (dir : List Entry)
    (hdot : '.' ∈ o) (hlen : o.length < 2 ^ 64)
    (hdir : ∀ e ∈ dir, e.name.length < 2 ^ 64)
    (hmatch : dir.filter (fun e => is_matched e.name) ≠ []) :
    (main (x :: o :: rest) dir).header =
      some ((insert_comment x o ++ header_def_start (macro_name o) ++
          header_def_end (macro_name o)) ++
        listing_block ((dir.filter (fun e => is_matched e.name)).map Entry.name) ++
        "\n\n".toList) ∧
    (main (x :: o :: rest) dir).source =
      some ((insert_comment x (source_name o) ++ include_line o ++
          ((main (x :: o :: rest) dir).units.map shader_block).flatten) ++
        listing_block ((dir.filter (fun e => is_matched e.name)).map Entry.name) ++
        "\n\n".toList) := by
  have hacc : accepted_names dir ≠ [] := by
    rw [accepted_names_eq dir hdir]
    simpa using hmatch
  rw [main_eq x o rest dir hdot hlen, if_neg hacc, accepted_names_eq dir hdir, file_listing_eq]
  have h2 : "\n\n".toList = "\n".toList ++ endl := rfl
  rw [h2]
  refine ⟨?_, ?_⟩
  · simp only [List.append_assoc]
  · simp only [List.append_assoc]

/-- C17 at a listing of two shader files, the first of which cannot be read. -/
theorem listing_identical_witness :
    (main ["glsl_to_c".toList, "shaders.h".toList]
        [⟨"a.vertex.glsl".toList, none⟩,
         ⟨"b.vertex.glsl".toList, some "void main();\n".toList⟩]).header =
      some ((insert_comment "glsl_to_c".toList "shaders.h".toList ++
          header_def_start (macro_name "shaders.h".toList) ++
          header_def_end (macro_name "shaders.h".toList)) ++
        listing_block (([(⟨"a.vertex.glsl".toList, none⟩ : Entry),
          ⟨"b.vertex.glsl".toList, some "void main();\n".toList⟩].filter
            (fun e => is_matched e.name)).map Entry.name) ++
        "\n\n".toList) :=
  (listing_identical "glsl_to_c".toList "shaders.h".toList []
    [⟨"a.vertex.glsl".toList, none⟩,
     ⟨"b.vertex.glsl".toList, some "void main();\n".toList⟩]
    (by decide) (by decide) (by decide) (by decide)).1

/-! ## The block of one shader -/

theorem foldl_write_text (text init : List Char) :
    text.foldl (fun out c => if c = '\n' then out ++ [c] ++ "  ".toList else out ++ [c]) init
      = init ++ indent_newlines text := by
  induction text generalizing init with
  | nil => simp [indent_newlines]
  | cons c cs ih =>
    rw [List.foldl_cons, ih]
    by_cases hc : c = '\n'
    · simp [indent_newlines, hc]
    · simp [indent_newlines, hc]

theorem write_text_eq (text : List Char) : write_text text = indent_newlines text := by
  unfold write_text
  rw [foldl_write_text, List.nil_append]

theorem shader_block_eq (u : ShaderUnit) :
    shader_block u =
      instantiation u.filename u.shader_var_name u.file_text u.length u.id := by
  unfold shader_block instantiation
  rw [write_text_eq]
  have hr : ∀ n : Nat, (Nat.repr n).toList = Nat.toDigits 10 n := fun _ => rfl
  rw [hr, hr]
  simp [endl, SHADER_TYPE_NAME]

theorem units_from_mem (k : Nat) (dir : List Entry) :
    ∀ u ∈ units_from k dir, ∃ e ∈ dir, ∃ text, e.content = some text ∧
      is_shader_file e.name = true ∧ u.filename = e.name ∧
      u.shader_var_name = shader_var_name e.name ∧
      u.file_text = file_text text ∧ u.length = true_length text := by
  induction dir generalizing k with
  | nil => simp [units_from]
  | cons e rest ih =>
    intro u hu
    by_cases hm : is_shader_file e.name = true
    · cases hcont : e.content with
      | none =>
        have : units_from k (e :: rest) = units_from k rest := by
          simp [units_from, hm, hcont]
        rw [this] at hu
        obtain ⟨e2, he2, h⟩ := ih k u hu
        exact ⟨e2, List.mem_cons_of_mem _ he2, h⟩
      | some text =>
        have : units_from k (e :: rest) =
            ⟨e.name, shader_var_name e.name, file_text text, true_length text, k⟩
              :: units_from (k + 1) rest := by
          simp [units_from, hm, hcont]
        rw [this] at hu
        rcases List.mem_cons.1 hu with h | h
        · exact ⟨e, List.mem_cons_self _ _, text, hcont, hm, by rw [h], by rw [h], by rw [h],
            by rw [h]⟩
        · obtain ⟨e2, he2, h2⟩ := ih (k + 1) u h
          exact ⟨e2, List.mem_cons_of_mem _ he2, h2⟩
    · have : units_from k (e :: rest) = units_from k rest := by
        simp [units_from, hm]
      rw [this] at hu
      obtain ⟨e2, he2, h⟩ := ih k u hu
      exact ⟨e2, List.mem_cons_of_mem _ he2, h⟩

/-- C18: the source output holds, between the `#include` and the file listing,
one block for each record instantiation, in order; each block is the
file-origin comment, then `_shader_code <instance name>(`, the escaped text
written with two blanks after each of its newlines, the true length and the
id, in this order, closed by `);`; and the values of each block are the
filename, the instance name, the escaped text and the true length of a
matched, readable entry of the listing. -/
theorem block_shape (x o : List Char) (rest : List (List Char)) (dir : List Entry)
    (hdot : '.' ∈ o) (hlen : o.length < 2 ^ 64)
    (hdir : ∀ e ∈ dir, e.name.length < 2 ^ 64) :
    (main (x :: o :: rest) dir).source =
      some (if dir.filter (fun e => is_matched e.name) = [] then " ".toList
        else insert_comment x (source_name o) ++ include_line o ++
          ((main (x :: o :: rest) dir).units.map
            (fun u => instantiation u.filename u.shader_var_name u.file_text u.length
              u.id)).flatten ++
          file_listing ((dir.filter (fun e => is_matched e.name)).map Entry.name) ++
          "\n".toList ++ endl) ∧
    (∀ u ∈ (main (x :: o :: rest) dir).units, ∃ e ∈ dir, ∃ text,
      e.content = some text ∧ is_matched e.name = true ∧ u.filename = e.name ∧
      u.shader_var_name = shader_var_name e.name ∧
      u.file_text = file_text text ∧ u.length = true_length text) ∧
    (∀ text, write_text text = indent_newlines text) := by
  have hfun : (fun u : ShaderUnit =>
      instantiation u.filename u.shader_var_name u.file_text u.length u.id) = shader_block := by
    funext u
    exact (shader_block_eq u).symm
  rw [hfun, main_units x o rest dir hdot hlen]
  refine ⟨?_, ?_, write_text_eq⟩
  · rw [main_eq x o rest dir hdot hlen, accepted_names_eq dir hdir]
    by_cases h : dir.filter (fun e => is_matched e.name) = []
    · simp [h]
    · simp [h]
  · intro u hu
    obtain ⟨e, he, text, h1, h2, h3⟩ := units_from_mem 1 dir u hu
    refine ⟨e, he, text, h1, ?_, h3⟩
    rw [← is_shader_file_eq_is_matched e.name (hdir e he)]
    exact h2

set_option maxRecDepth 100000 in
/-- C18 at a listing with one shader file of two lines. -/
theorem block_shape_witness :
    (main ["glsl_to_c".toList, "s.h".toList]
        [⟨"a.vertex.glsl".toList, some "in vec4 p;\nvoid main();\n".toList⟩]).units.map
      (fun u => instantiation u.filename u.shader_var_name u.file_text u.length u.id)
      = [("/** From file:  a.vertex.glsl\n */\n_shader_code A_vertex(\n  " ++
          "\"in vec4 p;\\n\"\n  \"void main();\\n\"\n  ,\n  24,\n  1\n);\n\n\n").toList] ∧
    (main ["glsl_to_c".toList, "s.h".toList]
        [⟨"a.vertex.glsl".toList, some "in vec4 p;\nvoid main();\n".toList⟩]).source =
      some (if [(⟨"a.vertex.glsl".toList, some "in vec4 p;\nvoid main();\n".toList⟩ :
          Entry)].filter (fun e => is_matched e.name) = [] then " ".toList
        else insert_comment "glsl_to_c".toList (source_name "s.h".toList) ++
          include_line "s.h".toList ++
          ((main ["glsl_to_c".toList, "s.h".toList]
            [⟨"a.vertex.glsl".toList, some "in vec4 p;\nvoid main();\n".toList⟩]).units.map
            (fun u => instantiation u.filename u.shader_var_name u.file_text u.length
              u.id)).flatten ++
          file_listing (([(⟨"a.vertex.glsl".toList,
            some "in vec4 p;\nvoid main();\n".toList⟩ : Entry)].filter
              (fun e => is_matched e.name)).map Entry.name) ++
          "\n".toList ++ endl) :=
  ⟨by decide,
    (block_shape "glsl_to_c".toList "s.h".toList []
      [⟨"a.vertex.glsl".toList, some "in vec4 p;\nvoid main();\n".toList⟩]
      (by decide) (by decide) (by decide)).1⟩

/-! ## The text after the last newline -/

theorem read_lines_no_newline_nil (t cur : List Char) (ht : '\n' ∉ t) :
    read_lines t cur = [] := by
  induction t generalizing cur with
  | nil => rfl
  | cons c cs ih =>
    have hc : c ≠ '\n' := fun e => ht (by simp [e])
    have hcs : '\n' ∉ cs := fun e => ht (by simp [e])
    rw [read_lines, if_neg hc, ih _ hcs]

theorem read_lines_append_tail (s t cur : List Char) (ht : '\n' ∉ t) :
    read_lines (s ++ t) cur = read_lines s cur := by
  induction s generalizing cur with
  | nil => rw [List.nil_append, read_lines_no_newline_nil t cur ht]; rfl
  | cons c cs ih =>
    by_cases hc : c = '\n'
    · rw [List.cons_append, read_lines, if_pos hc, ih, read_lines, if_pos hc]
    · rw [List.cons_append, read_lines, if_neg hc, ih, read_lines, if_neg hc]

theorem upto_last_newline_split (c : List Char) :
    ∃ tail, c = upto_last_newline c ++ tail ∧ '\n' ∉ tail := by
  refine ⟨(c.reverse.takeWhile (fun x => x ≠ '\n')).reverse, ?_, ?_⟩
  · unfold upto_last_newline
    rw [← List.reverse_append, List.takeWhile_append_dropWhile, List.reverse_reverse]
  · intro h
    have h2 := List.mem_takeWhile_imp (List.mem_reverse.1 h)
    simp at h2

theorem read_shader_tail (c t : List Char) (ht : '\n' ∉ t) :
    read_shader (c ++ t) = read_shader (upto_last_newline c) := by
  obtain ⟨tail, hc, htail⟩ := upto_last_newline_split c
  have hmem : '\n' ∉ tail ++ t := by
    simp only [List.mem_append, not_or]
    exact ⟨htail, ht⟩
  unfold read_shader
  have h1 : read_lines (c ++ t) [] = read_lines (upto_last_newline c) [] := by
    conv_lhs => rw [hc, List.append_assoc]
    exact read_lines_append_tail _ _ _ hmem
  rw [h1]

/-- C19: the escaper sees only the lines that end in a newline.  For every
file content `c` and every text `t` without a newline, the escaped text and
the true length of `c` followed by `t` are those of `c` cut after its last
newline; the text `t` alone, a file with no newline, gives the empty escaped
text and the true length 0. -/
theorem tail_ignored (c t : List Char) (ht : '\n' ∉ t) :
    file_text (c ++ t) = file_text (upto_last_newline c) ∧
    true_length (c ++ t) = true_length (upto_last_newline c) ∧
    file_text t = [] ∧ true_length t = 0 := by
  have h := read_shader_tail c t ht
  have h0 : read_shader t = ([], []) := by
    unfold read_shader
    rw [read_lines_no_newline_nil t [] ht]
    rfl
  refine ⟨?_, ?_, ?_, ?_⟩
  · unfold file_text
    rw [h]
  · unfold true_length length_text
    rw [h]
  · unfold file_text
    rw [h0]
  · unfold true_length length_text
    rw [h0]
    rfl

/-- C19 at a file of two lines, the second without its newline. -/
theorem tail_ignored_witness :
    file_text ("in vec4 p;\n".toList ++ "void main();".toList)
      = file_text (upto_last_newline "in vec4 p;\n".toList) ∧
    true_length ("in vec4 p;\n".toList ++ "void main();".toList)
      = true_length (upto_last_newline "in vec4 p;\n".toList) ∧
    file_text "void main();".toList = [] ∧ true_length "void main();".toList = 0 :=
  tail_ignored "in vec4 p;\n".toList "void main();".toList (by decide)

/-! ## The length of the escaped text -/

theorem escaped_lengths (lines : List (List Char)) :
    ((lines.map (fun l => escaped_segment l ++ "\n".toList)).flatten).length
      = ((lines.map (fun l => l ++ "\n".toList)).flatten).length + 4 * lines.length := by
  induction lines with
  | nil => rfl
  | cons l ls ih =>
    have h1 : (escaped_segment l ++ "\n".toList).length = (l ++ "\n".toList).length + 4 := by
      simp [escaped_segment]
    simp only [List.map_cons, List.flatten_cons, List.length_append, List.length_cons]
    simp only [List.length_append] at h1
    omega

theorem kept_eq (l : List Char) :
    kept l = decide (l ≠ [] ∧ l.take 2 ≠ "//".toList) := by
  simp [kept, substr]

/-- C20: for every file, the escaped text has `true length + 4 * k`
characters, where `k` is the number of retained lines (the lines read that
are not empty and do not start with `//`); and the escaped text is empty
exactly when the true length is 0. -/
theorem escaped_text_length (content : List Char) :
    (file_text content).length = true_length content +
      4 * ((read_lines content []).filter
        (fun l => decide (l ≠ [] ∧ l.take 2 ≠ "//".toList))).length ∧
    (file_text content = [] ↔ true_length content = 0) := by
  have hk : (fun l => decide (l ≠ [] ∧ l.take 2 ≠ "//".toList)) = kept := by
    funext l
    exact (kept_eq l).symm
  rw [hk]
  have hlen : (file_text content).length = true_length content +
      4 * ((read_lines content []).filter kept).length := by
    unfold file_text true_length length_text read_shader
    rw [foldl_add_line]
    simp only [List.nil_append]
    exact escaped_lengths _
  refine ⟨hlen, ?_⟩
  have hle : ((read_lines content []).filter kept).length ≤ true_length content := by
    unfold true_length length_text read_shader
    rw [foldl_add_line]
    simp only [List.nil_append]
    generalize (read_lines content []).filter kept = ls
    induction ls with
    | nil => simp
    | cons l ls ih =>
      simp only [List.map_cons, List.flatten_cons, List.length_append, List.length_cons]
      have h2 : ("\n".toList).length = 1 := rfl
      rw [h2]
      omega
  constructor
  · intro h
    have h0 : (file_text content).length = 0 := by rw [h]; rfl
    omega
  · intro h
    apply List.length_eq_zero.1
    omega

/-! ## The emitters, line by line -/

set_option maxRecDepth 100000 in
theorem insert_comment_eq (x n : List Char) :
    insert_comment x n = unlines (banner_lines x n) := by
  simp [insert_comment, banner_lines, unlines, endl]

set_option maxRecDepth 100000 in
theorem guard_open_eq (tag : List Char) :
    guard_open tag = unlines (guard_open_lines tag) := by
  simp [guard_open, guard_open_lines, unlines, endl, SHADER_TYPE_NAME]

set_option maxRecDepth 100000 in
theorem library_includes_eq : library_includes = unlines library_include_lines := by
  decide

set_option maxRecDepth 100000 in
theorem record_type_def_eq : record_type_def = unlines record_type_lines := by
  decide

set_option maxRecDepth 100000 in
theorem header_def_end_eq (tag : List Char) :
    header_def_end tag = unlines (guard_close_lines tag) := by
  simp [header_def_end, guard_close_lines, unlines, endl]

set_option maxRecDepth 100000 in
theorem include_line_eq (o : List Char) : include_line o = unlines (include_lines o) := by
  simp [include_line, include_lines, unlines, endl, DQ]

set_option maxRecDepth 100000 in
theorem externs_banner_eq : externs_banner = unlines externs_banner_lines := by
  decide

theorem unlines_append (a b : List (List Char)) :
    unlines (a ++ b) = unlines a ++ unlines b := by
  simp [unlines]

set_option maxRecDepth 100000 in
theorem listing_block_eq (names : List (List Char)) :
    listing_block names = unlines (listing_lines names) := by
  unfold listing_block listing_lines
  rw [unlines_append, unlines_append]
  have h1 : unlines ["//".toList,
      "// Summary of all files used for generation of this header:".toList, "//".toList]
      = "//\n// Summary of all files used for generation of this header:\n//\n".toList := by
    decide
  have h2 : unlines ["//".toList] = "//\n".toList := by decide
  have h3 : unlines (names.map (fun name => "// ".toList ++ name))
      = (names.map listing_line).flatten := by
    unfold unlines
    rw [List.map_map]
    rfl
  rw [h1, h2, h3]

theorem macro_name_eq_guard_token (o : List Char) : macro_name o = guard_token o := by
  unfold macro_name guard_token
  rw [foldl_snoc_map]
  congr 2
  exact List.map_congr_left (fun c _ => macro_char_eq_guard_map c)

theorem source_name_eq_cpp_name (o : List Char) (hdot : '.' ∈ o) (hlen : o.length < 2 ^ 64) :
    source_name o = cpp_name o := by
  obtain ⟨pre, post, he, hp⟩ := exists_last_split o '.' hdot
  have hl : o.length = pre.length + (post.length + 1) := by rw [he]; simp
  unfold source_name cpp_name replace
  simp only []
  rw [he, find_last_of_append pre post '.' hp, from_last_dot_append pre post hp, ← he,
    size_sub_of_le _ _ (by omega) hlen]
  have h1 : pre.length + min (o.length - pre.length) (o.length - pre.length) = o.length := by
    rw [Nat.min_self]; omega
  have h2 : o.length - ('.' :: post).length = pre.length := by
    simp only [List.length_cons]; omega
  rw [h1, h2, List.drop_length, List.append_nil]

/-! ## The lines of a generated text -/

theorem split_lines_unlines (lines : List (List Char)) (h : ∀ l ∈ lines, '\n' ∉ l) :
    split_lines (unlines lines) = lines ++ [[]] := by
  induction lines with
  | nil => rfl
  | cons l ls ih =>
    have hl : '\n' ∉ l := h l (by simp)
    have hls : ∀ l ∈ ls, '\n' ∉ l := fun a ha => h a (by simp [ha])
    have : unlines (l :: ls) = l ++ '\n' :: unlines ls := by
      simp [unlines]
    rw [this, split_lines_append l _ hl, ih hls]
    rfl

theorem guard_token_no_newline (o : List Char) : '\n' ∉ guard_token o := by
  rw [← macro_name_eq_guard_token]
  unfold macro_name
  rw [foldl_snoc_map]
  intro h
  simp only [List.mem_append, List.mem_map] at h
  rcases h with (h | ⟨a, _, ha⟩) | h
  · revert h; decide
  · rcases macro_char_range a with hu | hd | hu
    · rw [ha] at hu; revert hu; decide
    · rw [ha] at hd; revert hd; decide
    · rw [ha] at hu; revert hu; decide
  · revert h; decide

theorem guard_token_cons (o : List Char) :
    guard_token o = '_' :: (o.map guard_map ++ "_".toList) := rfl

theorem cpp_name_no_newline (o : List Char) (h : '\n' ∉ o) : '\n' ∉ cpp_name o := by
  unfold cpp_name
  intro hm
  rcases List.mem_append.1 hm with hm | hm
  · exact h (List.mem_of_mem_take hm)
  · revert hm; decide

set_option maxRecDepth 100000 in
theorem banner_lines_no_newline (x n : List Char) (hx : '\n' ∉ x) (hn : '\n' ∉ n) :
    ∀ l ∈ banner_lines x n, '\n' ∉ l := by
  simp [banner_lines, hx, hn]

set_option maxRecDepth 100000 in
theorem guard_open_lines_no_newline (tag : List Char) (ht : '\n' ∉ tag) :
    ∀ l ∈ guard_open_lines tag, '\n' ∉ l := by
  simp [guard_open_lines, ht]

set_option maxRecDepth 100000 in
theorem library_include_lines_no_newline : ∀ l ∈ library_include_lines, '\n' ∉ l := by
  decide

set_option maxRecDepth 100000 in
theorem record_type_lines_no_newline : ∀ l ∈ record_type_lines, '\n' ∉ l := by
  decide

set_option maxRecDepth 100000 in
theorem guard_close_lines_no_newline (tag : List Char) (ht : '\n' ∉ tag) :
    ∀ l ∈ guard_close_lines tag, '\n' ∉ l := by
  simp [guard_close_lines, ht]

set_option maxRecDepth 100000 in
theorem listing_lines_no_newline (names : List (List Char)) (h : ∀ n ∈ names, '\n' ∉ n) :
    ∀ l ∈ listing_lines names, '\n' ∉ l := by
  have hA : ∀ l ∈ ["//".toList,
      "// Summary of all files used for generation of this header:".toList, "//".toList],
      '\n' ∉ l := by decide
  have hB : ∀ l ∈ ["//".toList], '\n' ∉ l := by decide
  intro l hl
  unfold listing_lines at hl
  rcases List.mem_append.1 hl with hl | hl
  · rcases List.mem_append.1 hl with hl | hl
    · exact hA l hl
    · obtain ⟨n, hn, rfl⟩ := List.mem_map.1 hl
      have := h n hn
      simp [this]
  · exact hB l hl

set_option maxRecDepth 100000 in
theorem include_lines_no_newline (o : List Char) (ho : '\n' ∉ o) :
    ∀ l ∈ include_lines o, '\n' ∉ l := by
  simp [include_lines, ho]

/-! ## How often, and where, the lines of the preamble occur -/

theorem count_map_ne (L : List Char) (names : List (List Char)) (f : List Char → List Char)
    (hL : ∀ n, f n ≠ L) : (names.map f).count L = 0 := by
  rw [List.count_eq_zero]
  intro h
  obtain ⟨n, _, hn⟩ := List.mem_map.1 h
  exact hL n hn

set_option maxRecDepth 100000 in
theorem header_lines_count (x o : List Char) (names : List (List Char)) :
    (banner_lines x o ++ guard_open_lines (guard_token o) ++ library_include_lines ++
      record_type_lines ++ guard_close_lines (guard_token o) ++ listing_lines names ++
      [[], []] ++ [[]]).count (" * \\file ".toList ++ o) = 1 ∧
    (banner_lines x o ++ guard_open_lines (guard_token o) ++ library_include_lines ++
      record_type_lines ++ guard_close_lines (guard_token o) ++ listing_lines names ++
      [[], []] ++ [[]]).count ("#ifndef  ".toList ++ guard_token o) = 1 ∧
    (banner_lines x o ++ guard_open_lines (guard_token o) ++ library_include_lines ++
      record_type_lines ++ guard_close_lines (guard_token o) ++ listing_lines names ++
      [[], []] ++ [[]]).count "struct _shader_code".toList = 1 ∧
    (banner_lines x o ++ guard_open_lines (guard_token o) ++ library_include_lines ++
      record_type_lines ++ guard_close_lines (guard_token o) ++ listing_lines names ++
      [[], []] ++ [[]]).count ("#endif /* ".toList ++ guard_token o ++ " */".toList) = 1 := by
  refine ⟨?_, ?_, ?_, ?_⟩
  · simp [banner_lines, guard_open_lines, library_include_lines, record_type_lines,
      guard_close_lines, listing_lines, List.count_cons, List.count_append, guard_token_cons]
    exact count_map_ne _ _ _ (fun n => by simp)
  · simp [banner_lines, guard_open_lines, library_include_lines, record_type_lines,
      guard_close_lines, listing_lines, List.count_cons, List.count_append, guard_token_cons]
    exact count_map_ne _ _ _ (fun n => by simp)
  · simp [banner_lines, guard_open_lines, library_include_lines, record_type_lines,
      guard_close_lines, listing_lines, List.count_cons, List.count_append, guard_token_cons]
    exact count_map_ne _ _ _ (fun n => by simp)
  · simp [banner_lines, guard_open_lines, library_include_lines, record_type_lines,
      guard_close_lines, listing_lines, List.count_cons, List.count_append, guard_token_cons]
    exact count_map_ne _ _ _ (fun n => by simp)

set_option maxRecDepth 100000 in
theorem header_lines_index (x o : List Char) (names : List (List Char)) :
    (banner_lines x o ++ guard_open_lines (guard_token o) ++ library_include_lines ++
      record_type_lines ++ guard_close_lines (guard_token o) ++ listing_lines names ++
      [[], []] ++ [[]]).indexOf (" * \\file ".toList ++ o) = 1 ∧
    (banner_lines x o ++ guard_open_lines (guard_token o) ++ library_include_lines ++
      record_type_lines ++ guard_close_lines (guard_token o) ++ listing_lines names ++
      [[], []] ++ [[]]).indexOf ("#ifndef  ".toList ++ guard_token o) = 20 ∧
    (banner_lines x o ++ guard_open_lines (guard_token o) ++ library_include_lines ++
      record_type_lines ++ guard_close_lines (guard_token o) ++ listing_lines names ++
      [[], []] ++ [[]]).indexOf "struct _shader_code".toList = 35 ∧
    (banner_lines x o ++ guard_open_lines (guard_token o) ++ library_include_lines ++
      record_type_lines ++ guard_close_lines (guard_token o) ++ listing_lines names ++
      [[], []] ++ [[]]).indexOf ("#endif /* ".toList ++ guard_token o ++ " */".toList) = 53 ∧
    (banner_lines x o ++ guard_open_lines (guard_token o) ++ library_include_lines ++
      record_type_lines ++ guard_close_lines (guard_token o) ++ listing_lines names ++
      [[], []] ++ [[]]).indexOf
        "// Summary of all files used for generation of this header:".toList = 56 := by
  refine ⟨?_, ?_, ?_, ?_, ?_⟩
  · simp [banner_lines, guard_open_lines, library_include_lines, record_type_lines,
      guard_close_lines, listing_lines, List.indexOf_cons, guard_token_cons]
  · simp [banner_lines, guard_open_lines, library_include_lines, record_type_lines,
      guard_close_lines, listing_lines, List.indexOf_cons, guard_token_cons]
  · simp [banner_lines, guard_open_lines, library_include_lines, record_type_lines,
      guard_close_lines, listing_lines, List.indexOf_cons, guard_token_cons]
  · simp [banner_lines, guard_open_lines, library_include_lines, record_type_lines,
      guard_close_lines, listing_lines, List.indexOf_cons, guard_token_cons]
  · simp [banner_lines, guard_open_lines, library_include_lines, record_type_lines,
      guard_close_lines, listing_lines, List.indexOf_cons, guard_token_cons]

set_option maxRecDepth 100000 in
theorem source_prefix_count (x o c : List Char) :
    (banner_lines x c ++ include_lines o ++ [[]]).count (" * \\file ".toList ++ c) = 1 ∧
    (banner_lines x c ++ include_lines o ++ [[]]).count
      ("#include \"".toList ++ o ++ "\"".toList) = 1 ∧
    (banner_lines x c ++ include_lines o ++ [[]]).indexOf (" * \\file ".toList ++ c) = 1 ∧
    (banner_lines x c ++ include_lines o ++ [[]]).indexOf
      ("#include \"".toList ++ o ++ "\"".toList) = 15 := by
  refine ⟨?_, ?_, ?_, ?_⟩
  · simp [banner_lines, include_lines, List.count_cons]
  · simp [banner_lines, include_lines, List.count_cons]
  · simp [banner_lines, include_lines, List.indexOf_cons]
  · simp [banner_lines, include_lines, List.indexOf_cons]

/-! ## The outputs of a run that matched a file, line by line -/

theorem run_filenames_ne_nil (x o : List Char) (rest : List (List Char)) (dir : List Entry)
    (h : run_filenames (x :: o :: rest) dir ≠ []) :
    '.' ∈ o ∧ accepted_names dir ≠ [] := by
  unfold run_filenames at h
  simp only [scan_init] at h
  by_cases hn : find_last_of o '.' = npos
  · rw [if_pos hn] at h
    exact absurd rfl h
  · rw [if_neg hn] at h
    refine ⟨?_, ?_⟩
    · by_contra hd
      exact hn (find_last_of_not_mem o '.' hd)
    · intro ha
      rw [if_pos ha] at h
      exact h rfl

theorem run_filenames_eq (x o : List Char) (rest : List (List Char)) (dir : List Entry)
    (hdot : '.' ∈ o) (hlen : o.length < 2 ^ 64) :
    run_filenames (x :: o :: rest) dir = accepted_names dir := by
  unfold run_filenames
  simp only [scan_init, if_neg (find_last_of_ne_npos o '.' hdot hlen)]
  by_cases ha : accepted_names dir = []
  · rw [if_pos ha, ha]
    rfl
  · rw [if_neg ha]

theorem main_header_lines (x o : List Char) (rest : List (List Char)) (dir : List Entry)
    (hdot : '.' ∈ o) (hlen : o.length < 2 ^ 64)
    (hacc : accepted_names dir ≠ []) :
    (main (x :: o :: rest) dir).header =
      some (unlines (banner_lines x o ++ guard_open_lines (guard_token o) ++
        library_include_lines ++ record_type_lines ++ guard_close_lines (guard_token o) ++
        listing_lines (accepted_names dir) ++ [[], []])) := by
  rw [main_eq x o rest dir hdot hlen, if_neg hacc]
  have h2 : "\n".toList ++ endl = unlines [[], []] := rfl
  show some (insert_comment x o ++ header_def_start (macro_name o) ++
    header_def_end (macro_name o) ++ file_listing (accepted_names dir) ++ "\n".toList ++ endl)
    = _
  rw [List.append_assoc _ "\n".toList endl, h2, header_def_start, insert_comment_eq,
    guard_open_eq, library_includes_eq, record_type_def_eq, header_def_end_eq, file_listing_eq,
    listing_block_eq, macro_name_eq_guard_token]
  simp only [unlines_append, List.append_assoc]

theorem main_source_lines (x o : List Char) (rest : List (List Char)) (dir : List Entry)
    (hdot : '.' ∈ o) (hlen : o.length < 2 ^ 64)
    (hacc : accepted_names dir ≠ []) :
    (main (x :: o :: rest) dir).source =
      some (unlines (banner_lines x (cpp_name o) ++ include_lines o) ++
        ((units_from 1 dir).map
          (fun u => instantiation u.filename u.shader_var_name u.file_text u.length
            u.id)).flatten ++
        unlines (listing_lines (accepted_names dir) ++ [[], []])) := by
  have hfun : (fun u : ShaderUnit =>
      instantiation u.filename u.shader_var_name u.file_text u.length u.id) = shader_block := by
    funext u
    exact (shader_block_eq u).symm
  rw [main_eq x o rest dir hdot hlen, if_neg hacc, hfun]
  have h2 : "\n".toList ++ endl = unlines [[], []] := rfl
  show some (insert_comment x (source_name o) ++ include_line o ++
    ((units_from 1 dir).map shader_block).flatten ++ file_listing (accepted_names dir) ++
    "\n".toList ++ endl) = _
  rw [List.append_assoc _ "\n".toList endl, h2, insert_comment_eq, include_line_eq,
    file_listing_eq, listing_block_eq, source_name_eq_cpp_name o hdot hlen]
  simp only [unlines_append, List.append_assoc]

theorem main_externs_lines (x o : List Char) (rest : List (List Char)) (dir : List Entry)
    (hdot : '.' ∈ o) (hlen : o.length < 2 ^ 64)
    (hacc : accepted_names dir ≠ []) :
    (main (x :: o :: rest) dir).externs =
      some (unlines externs_banner_lines ++
        ((units_from 1 dir).map (fun u => extern_line u.shader_var_name)).flatten ++
        "\n".toList) := by
  rw [main_eq x o rest dir hdot hlen, if_neg hacc]
  show some (externs_text _) = _
  unfold externs_text
  rw [foldl_extern_lines, List.nil_append, List.map_map, externs_banner_eq]
  rfl

theorem header_lines_no_newline (x o : List Char) (names : List (List Char))
    (hx : '\n' ∉ x) (ho : '\n' ∉ o) (hn : ∀ n ∈ names, '\n' ∉ n) :
    ∀ l ∈ banner_lines x o ++ guard_open_lines (guard_token o) ++ library_include_lines ++
      record_type_lines ++ guard_close_lines (guard_token o) ++ listing_lines names ++
      [[], []], '\n' ∉ l := by
  have hlast : ∀ l ∈ [([] : List Char), []], '\n' ∉ l := by decide
  intro l hl
  simp only [List.mem_append] at hl
  rcases hl with (((((h | h) | h) | h) | h) | h) | h
  · exact banner_lines_no_newline x o hx ho l h
  · exact guard_open_lines_no_newline _ (guard_token_no_newline o) l h
  · exact library_include_lines_no_newline l h
  · exact record_type_lines_no_newline l h
  · exact guard_close_lines_no_newline _ (guard_token_no_newline o) l h
  · exact listing_lines_no_newline names hn l h
  · exact hlast l h

theorem source_prefix_no_newline (x o c : List Char)
    (hx : '\n' ∉ x) (ho : '\n' ∉ o) (hc : '\n' ∉ c) :
    ∀ l ∈ banner_lines x c ++ include_lines o, '\n' ∉ l := by
  intro l hl
  rcases List.mem_append.1 hl with h | h
  · exact banner_lines_no_newline x c hx hc l h
  · exact include_lines_no_newline o ho l h

theorem main_header_marks (x o : List Char) (rest : List (List Char)) (dir : List Entry)
    (hdot : '.' ∈ o) (hlen : o.length < 2 ^ 64)
    (hdir : ∀ e ∈ dir, e.name.length < 2 ^ 64)
    (hacc : accepted_names dir ≠ [])
    (hx : '\n' ∉ x) (ho : '\n' ∉ o) (hnames : ∀ e ∈ dir, '\n' ∉ e.name) :
    (split_lines ((main (x :: o :: rest) dir).header.getD [])).count
        (" * \\file ".toList ++ o) = 1 ∧
    (split_lines ((main (x :: o :: rest) dir).header.getD [])).count
        ("#ifndef  ".toList ++ guard_token o) = 1 ∧
    (split_lines ((main (x :: o :: rest) dir).header.getD [])).count
        "struct _shader_code".toList = 1 ∧
    (split_lines ((main (x :: o :: rest) dir).header.getD [])).count
        ("#endif /* ".toList ++ guard_token o ++ " */".toList) = 1 ∧
    (split_lines ((main (x :: o :: rest) dir).header.getD [])).indexOf
        (" * \\file ".toList ++ o) <
      (split_lines ((main (x :: o :: rest) dir).header.getD [])).indexOf
        ("#ifndef  ".toList ++ guard_token o) ∧
    (split_lines ((main (x :: o :: rest) dir).header.getD [])).indexOf
        ("#ifndef  ".toList ++ guard_token o) <
      (split_lines ((main (x :: o :: rest) dir).header.getD [])).indexOf
        "struct _shader_code".toList ∧
    (split_lines ((main (x :: o :: rest) dir).header.getD [])).indexOf
        "struct _shader_code".toList <
      (split_lines ((main (x :: o :: rest) dir).header.getD [])).indexOf
        ("#endif /* ".toList ++ guard_token o ++ " */".toList) ∧
    (split_lines ((main (x :: o :: rest) dir).header.getD [])).indexOf
        ("#endif /* ".toList ++ guard_token o ++ " */".toList) <
      (split_lines ((main (x :: o :: rest) dir).header.getD [])).indexOf
        "// Summary of all files used for generation of this header:".toList := by
  have hhead := main_header_lines x o rest dir hdot hlen hacc
  rw [accepted_names_eq dir hdir] at hhead
  have hnl : ∀ n ∈ (dir.filter (fun e => is_matched e.name)).map Entry.name, '\n' ∉ n := by
    intro n hmem
    obtain ⟨e, he, rfl⟩ := List.mem_map.1 hmem
    exact hnames e (List.mem_of_mem_filter he)
  rw [hhead, Option.getD_some,
    split_lines_unlines _ (header_lines_no_newline x o _ hx ho hnl)]
  obtain ⟨c1, c2, c3, c4⟩ := header_lines_count x o
    ((dir.filter (fun e => is_matched e.name)).map Entry.name)
  obtain ⟨i1, i2, i3, i4, i5⟩ := header_lines_index x o
    ((dir.filter (fun e => is_matched e.name)).map Entry.name)
  refine ⟨c1, c2, c3, c4, ?_, ?_, ?_, ?_⟩
  · rw [i1, i2]; decide
  · rw [i2, i3]; decide
  · rw [i3, i4]; decide
  · rw [i4, i5]; decide

/-! ## The preamble -/

/-- C10: in a run that matched at least one file, the header output is, line
by line, the banner comment, the opening of the include guard, the library
includes, the record type, the closing of the include guard, the file listing
and two empty lines; the source output is its banner and the `#include` of
the header, then the blocks of the shaders, then the file listing.  When the
names hold no newline, the line `\file` of the banner, the `#ifndef` of the
guard, the line `struct _shader_code` and the `#endif` of the guard each occur
exactly once among the lines of the header, in this order and before the
first line of the file listing; and the `\file` line and the `#include` line
each occur exactly once, in this order, in what the source holds before its
first block. -/
theorem preamble_once (x o : List Char) (rest : List (List Char)) (dir : List Entry)
    (hlen : o.length < 2 ^ 64)
    (hdir : ∀ e ∈ dir, e.name.length < 2 ^ 64)
    (hrun : run_filenames (x :: o :: rest) dir ≠ []) :
    (main (x :: o :: rest) dir).header =
      some (unlines (banner_lines x o ++ guard_open_lines (guard_token o) ++
        library_include_lines ++ record_type_lines ++ guard_close_lines (guard_token o) ++
        listing_lines ((dir.filter (fun e => is_matched e.name)).map Entry.name) ++
        [[], []])) ∧
    (main (x :: o :: rest) dir).source =
      some (unlines (banner_lines x (cpp_name o) ++ include_lines o) ++
        ((main (x :: o :: rest) dir).units.map
          (fun u => instantiation u.filename u.shader_var_name u.file_text u.length
            u.id)).flatten ++
        unlines (listing_lines ((dir.filter (fun e => is_matched e.name)).map Entry.name) ++
          [[], []])) ∧
    ('\n' ∉ x → '\n' ∉ o → (∀ e ∈ dir, '\n' ∉ e.name) →
      (split_lines ((main (x :: o :: rest) dir).header.getD [])).count
          (" * \\file ".toList ++ o) = 1 ∧
      (split_lines ((main (x :: o :: rest) dir).header.getD [])).count
          ("#ifndef  ".toList ++ guard_token o) = 1 ∧
      (split_lines ((main (x :: o :: rest) dir).header.getD [])).count
          "struct _shader_code".toList = 1 ∧
      (split_lines ((main (x :: o :: rest) dir).header.getD [])).count
          ("#endif /* ".toList ++ guard_token o ++ " */".toList) = 1 ∧
      (split_lines ((main (x :: o :: rest) dir).header.getD [])).indexOf
          (" * \\file ".toList ++ o) <
        (split_lines ((main (x :: o :: rest) dir).header.getD [])).indexOf
          ("#ifndef  ".toList ++ guard_token o) ∧
      (split_lines ((main (x :: o :: rest) dir).header.getD [])).indexOf
          ("#ifndef  ".toList ++ guard_token o) <
        (split_lines ((main (x :: o :: rest) dir).header.getD [])).indexOf
          "struct _shader_code".toList ∧
      (split_lines ((main (x :: o :: rest) dir).header.getD [])).indexOf
          "struct _shader_code".toList <
        (split_lines ((main (x :: o :: rest) dir).header.getD [])).indexOf
          ("#endif /* ".toList ++ guard_token o ++ " */".toList) ∧
      (split_lines ((main (x :: o :: rest) dir).header.getD [])).indexOf
          ("#endif /* ".toList ++ guard_token o ++ " */".toList) <
        (split_lines ((main (x :: o :: rest) dir).header.getD [])).indexOf
          "// Summary of all files used for generation of this header:".toList) ∧
    ('\n' ∉ x → '\n' ∉ o →
      (split_lines (unlines (banner_lines x (cpp_name o) ++ include_lines o))).count
          (" * \\file ".toList ++ cpp_name o) = 1 ∧
      (split_lines (unlines (banner_lines x (cpp_name o) ++ include_lines o))).count
          ("#include \"".toList ++ o ++ "\"".toList) = 1 ∧
      (split_lines (unlines (banner_lines x (cpp_name o) ++ include_lines o))).indexOf
          (" * \\file ".toList ++ cpp_name o) <
        (split_lines (unlines (banner_lines x (cpp_name o) ++ include_lines o))).indexOf
          ("#include \"".toList ++ o ++ "\"".toList)) := by
  obtain ⟨hdot, hacc⟩ := run_filenames_ne_nil x o rest dir hrun
  have hn := accepted_names_eq dir hdir
  have hhead := main_header_lines x o rest dir hdot hlen hacc
  have hsrc := main_source_lines x o rest dir hdot hlen hacc
  rw [hn] at hhead hsrc
  rw [← main_units x o rest dir hdot hlen] at hsrc
  refine ⟨hhead, hsrc, ?_, ?_⟩
  · intro hx ho hnames
    exact main_header_marks x o rest dir hdot hlen hdir hacc hx ho hnames
  · intro hx ho
    rw [split_lines_unlines _
      (source_prefix_no_newline x o _ hx ho (cpp_name_no_newline o ho))]
    obtain ⟨c1, c2, i1, i2⟩ := source_prefix_count x o (cpp_name o)
    refine ⟨c1, c2, ?_⟩
    rw [i1, i2]; decide

set_option maxRecDepth 100000 in
/-- C10 at a listing of two shader files, the first of which cannot be read:
the record type occurs exactly once among the lines of the header. -/
theorem preamble_once_witness :
    (split_lines ((main ["glsl_to_c".toList, "shaders.h".toList]
        [⟨"a.vertex.glsl".toList, none⟩,
         ⟨"b.vertex.glsl".toList, some "void main();\n".toList⟩]).header.getD [])).count
      "struct _shader_code".toList = 1 :=
  ((preamble_once "glsl_to_c".toList "shaders.h".toList []
    [⟨"a.vertex.glsl".toList, none⟩,
     ⟨"b.vertex.glsl".toList, some "void main();\n".toList⟩]
    (by decide) (by decide) (by decide)).2.2.1 (by decide) (by decide) (by decide)).2.2.1


/-! ## A run that writes no record instantiation -/

set_option maxRecDepth 100000 in
/-- C15 as stated fails: with the single entry `a.vertex.glsl`, which cannot
be read, no record instantiation is written, and the line
`struct _shader_code` of the record-type definition occurs among the lines of
the header output. -/
theorem record_type_without_units_counterexample :
    (main ["glsl_to_c".toList, "shaders.h".toList]
        [⟨"a.vertex.glsl".toList, none⟩]).units = [] ∧
    (split_lines ((main ["glsl_to_c".toList, "shaders.h".toList]
        [⟨"a.vertex.glsl".toList, none⟩]).header.getD [])).count
      "struct _shader_code".toList = 1 := by
  refine ⟨by decide, ?_⟩
  exact (main_header_marks "glsl_to_c".toList "shaders.h".toList []
    [⟨"a.vertex.glsl".toList, none⟩] (by decide) (by decide) (by decide) (by decide)
    (by decide) (by decide) (by decide)).2.2.1

/-- C15 as amended: in a run that is given an output filename and writes no
record instantiation, no per-shader content is written to any output.  With no
`.` in the output filename nothing is written at all; with a `.` and no
matched entry the header and the source are one blank each and the externs
file is not written; with a `.` and matched entries, none of which can be
read, the header still holds banner, include guard, record type and file
listing, the source holds its banner, the `#include` and the file listing,
and the externs file holds its banner and no declaration.  So, for names
without a newline, the line `struct _shader_code` occurs once among the lines
of the header when the output filename holds a `.` and an entry is matched,
and not at all otherwise. -/
theorem no_units_outputs (x o : List Char) (rest : List (List Char)) (dir : List Entry)
    (hlen : o.length < 2 ^ 64)
    (hdir : ∀ e ∈ dir, e.name.length < 2 ^ 64)
    (hunit : (main (x :: o :: rest) dir).units = []) :
    (main (x :: o :: rest) dir).header =
      some (if '.' ∈ o then
          (if dir.filter (fun e => is_matched e.name) = [] then " ".toList
          else unlines (banner_lines x o ++ guard_open_lines (guard_token o) ++
            library_include_lines ++ record_type_lines ++
            guard_close_lines (guard_token o) ++
            listing_lines ((dir.filter (fun e => is_matched e.name)).map Entry.name) ++
            [[], []]))
        else []) ∧
    (main (x :: o :: rest) dir).source =
      (if '.' ∈ o then
          some (if dir.filter (fun e => is_matched e.name) = [] then " ".toList
            else unlines (banner_lines x (cpp_name o) ++ include_lines o ++
              listing_lines ((dir.filter (fun e => is_matched e.name)).map Entry.name) ++
              [[], []]))
        else none) ∧
    (main (x :: o :: rest) dir).externs =
      (if '.' ∈ o ∧ dir.filter (fun e => is_matched e.name) ≠ [] then
          some (unlines externs_banner_lines ++ "\n".toList)
        else none) ∧
    ('\n' ∉ x → '\n' ∉ o → (∀ e ∈ dir, '\n' ∉ e.name) →
      (split_lines ((main (x :: o :: rest) dir).header.getD [])).count
          "struct _shader_code".toList =
        if '.' ∈ o ∧ dir.filter (fun e => is_matched e.name) ≠ [] then 1 else 0) := by
  by_cases hdot : '.' ∈ o
  · have hn := accepted_names_eq dir hdir
    by_cases hm : dir.filter (fun e => is_matched e.name) = []
    · have hacc : accepted_names dir = [] := by rw [hn, hm]; rfl
      rw [main_eq x o rest dir hdot hlen, if_pos hacc]
      simp only [hdot, hm, if_true, ne_eq, not_true_eq_false, and_false, if_false]
      exact ⟨trivial, trivial, trivial, fun _ _ _ => by decide⟩
    · have hacc : accepted_names dir ≠ [] := by
        rw [hn]
        simpa using hm
      have hu : units_from 1 dir = [] := by
        rw [← main_units x o rest dir hdot hlen]
        exact hunit
      have hhead := main_header_lines x o rest dir hdot hlen hacc
      have hsrc := main_source_lines x o rest dir hdot hlen hacc
      have hext := main_externs_lines x o rest dir hdot hlen hacc
      rw [hn] at hhead hsrc
      rw [hu] at hsrc hext
      simp only [hdot, hm, if_true, if_false, ne_eq, not_false_eq_true, and_self]
      refine ⟨hhead, ?_, ?_, ?_⟩
      · rw [hsrc]
        simp only [List.map_nil, List.flatten_nil, List.append_nil, unlines_append,
          List.append_assoc]
      · rw [hext]
        simp only [List.map_nil, List.flatten_nil, List.append_nil]
      · intro hx ho hnames
        exact (main_header_marks x o rest dir hdot hlen hdir hacc hx ho hnames).2.2.1
  · rw [main_no_dot x o rest dir hdot]
    simp only [hdot, if_false, false_and]
    exact ⟨trivial, trivial, trivial, fun _ _ _ => by decide⟩

set_option maxRecDepth 100000 in
/-- C15 as amended, at a listing of one shader file that cannot be read and
at an output filename without a dot. -/
theorem no_units_outputs_witness :
    (split_lines ((main ["glsl_to_c".toList, "shaders.h".toList]
        [⟨"a.vertex.glsl".toList, none⟩]).header.getD [])).count
      "struct _shader_code".toList = 1 ∧
    (main ["glsl_to_c".toList, "shaders".toList]
        [⟨"a.vertex.glsl".toList, none⟩]).header = some [] :=
  ⟨(no_units_outputs "glsl_to_c".toList "shaders.h".toList []
      [⟨"a.vertex.glsl".toList, none⟩] (by decide) (by decide) (by decide)).2.2.2
      (by decide) (by decide) (by decide),
    (no_units_outputs "glsl_to_c".toList "shaders".toList []
      [⟨"a.vertex.glsl".toList, none⟩] (by decide) (by decide) (by decide)).1⟩

end GlslToC
